import Mathlib

/-! KinectTouch: touch detection and TUIO cursor tracking.

A shallow embedding of `src/KinectTouch.cpp` (functions `average` and the frame
loop of `main`) together with the parts of the TUIO server the frame loop calls.

Conventions of the embedding.

* A matrix (`cv::Mat_<T>`) is its size and its pixel function `px row col`.
* `short` pixels are integers; the saturating conversion `saturate_cast<short>`
  is explicit. `double` and `float` values are rationals. The two `float`
  operations of the frame loop whose result need not be representable (the
  division and the subtraction from one in `cursorX` / `cursorY`) go through an
  explicit rounding function `fl`.
* OpenCV is an external library. `contourArea`, `mean` and the sub-matrix range
  check are written out after the OpenCV sources' behaviour; `findContours` is a
  parameter of the detection step, constrained by hypotheses where a property
  needs one.
* `TuioServer.cpp` is not available: the server operations are modelled from
  the declarations' documentation in `TuioServer.h` and from the specification.
* `TuioTime` values are natural numbers; only equality of time stamps is used.
-/

namespace KinectTouch

/-! ## Matrices and pixel arithmetic -/

/-- A matrix `cv::Mat_<T>`: `rows`, `cols` and the pixel at `(row, col)`. -/
structure Mat (α : Type) where
  rows : Int
  cols : Int
  px : Int → Int → α

/-- The type `Mat1s`: signed 16 bit pixels. -/
abbrev Mat1s := Mat Int

/-- The type `Mat1b`: unsigned 8 bit pixels. -/
abbrev Mat1b := Mat Nat

/-- The type `Mat1d`: double precision pixels. -/
abbrev Mat1d := Mat ℚ

/-- The conversion `saturate_cast<short>` of an integer. -/
def saturateShort (v : Int) : Int :=
  if v < -32768 then -32768 else if 32767 < v then 32767 else v

/-- The constant `touchDepthMin` of `main`. -/
def touchDepthMin : Int := 10

/-- The constant `touchDepthMax` of `main`. -/
def touchDepthMax : Int := 20

/-- The constant `touchMinArea` of `main`. -/
def touchMinArea : Nat := 50

/-- The constant `nBackgroundTrain` of `main`. -/
def nBackgroundTrain : Nat := 30

/-- The expression `background - depth` on `Mat1s`: per pixel saturating
subtraction. (OpenCV requires equal sizes; in `main` both are 480 x 640.) -/
def Mat1s.sub (a b : Mat1s) : Mat1s :=
  { rows := a.rows, cols := a.cols, px := fun r c => saturateShort (a.px r c - b.px r c) }

/-- The comparison `m > s` of a matrix with a scalar: 255 where true, else 0. -/
def Mat1s.gt (m : Mat1s) (s : Int) : Mat1b :=
  { rows := m.rows, cols := m.cols, px := fun r c => if s < m.px r c then 255 else 0 }

/-- The comparison `m < s` of a matrix with a scalar: 255 where true, else 0. -/
def Mat1s.lt (m : Mat1s) (s : Int) : Mat1b :=
  { rows := m.rows, cols := m.cols, px := fun r c => if m.px r c < s then 255 else 0 }

/-- The expression `a & b` on `Mat1b`: per pixel bitwise and. -/
def Mat1b.and (a b : Mat1b) : Mat1b :=
  { rows := a.rows, cols := a.cols, px := fun r c => Nat.land (a.px r c) (b.px r c) }

/-- Lines 167-170 of `main`:
`foreground = background - depth;`
`touch = (foreground > touchDepthMin) & (foreground < touchDepthMax);` -/
def touchMask (background depth : Mat1s) : Mat1b :=
  let foreground := Mat1s.sub background depth
  Mat1b.and (Mat1s.gt foreground touchDepthMin) (Mat1s.lt foreground touchDepthMax)

/-! ## Background model: `average` -/

/-- The function `cvRound`: nearest integer, ties to the even one. -/
def cvRound (v : ℚ) : Int :=
  let f := ⌊v⌋
  if v - f < 1 / 2 then f else if 1 / 2 < v - f then f + 1 else if f % 2 = 0 then f else f + 1

/-- The call `m.convertTo(frame, CV_64FC1)` on a `Mat1s`. -/
def Mat1s.convertTo64F (m : Mat1s) : Mat1d :=
  { rows := m.rows, cols := m.cols, px := fun r c => (m.px r c : ℚ) }

/-- The expression `acc + frame` on `Mat1d`. -/
def Mat1d.add (a b : Mat1d) : Mat1d :=
  { rows := a.rows, cols := a.cols, px := fun r c => a.px r c + b.px r c }

/-- The expression `acc / n` on `Mat1d`, with `n = frames.size()`. -/
def Mat1d.divScalar (a : Mat1d) (n : Nat) : Mat1d :=
  { rows := a.rows, cols := a.cols, px := fun r c => a.px r c / (n : ℚ) }

/-- The call `acc.convertTo(mean, CV_16SC1)`: `saturate_cast<short>` of a double,
which rounds with `cvRound` and saturates. -/
def Mat1d.convertTo16S (a : Mat1d) : Mat1s :=
  { rows := a.rows, cols := a.cols, px := fun r c => saturateShort (cvRound (a.px r c)) }

/-- The function `average(frames, mean)`; the result is the new contents of
`mean`. `Mat1d acc(mean.size())` allocates the accumulator without initialising
it: `uninit` is the contents of that allocation. The incoming `mean` is used for
its size only. -/
def average (uninit : Int → Int → ℚ) (frames : List Mat1s) (mean : Mat1s) : Mat1s :=
  let acc : Mat1d := { rows := mean.rows, cols := mean.cols, px := uninit }
  let acc := frames.foldl (fun acc f => Mat1d.add acc (Mat1s.convertTo64F f)) acc
  let acc := Mat1d.divScalar acc frames.length
  Mat1d.convertTo16S acc

/-! ## Touch detection -/

/-- The type `Point2i`. -/
structure Point2i where
  x : Int
  y : Int
deriving DecidableEq, Repr

/-- The type `Rect`. -/
structure Rect where
  x : Int
  y : Int
  width : Int
  height : Int
deriving DecidableEq, Repr

/-- An exception thrown by an OpenCV call (`cv::Exception`). `main` catches
none, so it ends the program. -/
inductive CvException where
  | assertionFailed
deriving DecidableEq, Repr

/-- The expression `touch(roi)`: the sub-matrix of `m` on `roi`. OpenCV checks
`0 <= roi.x && 0 <= roi.width && roi.x + roi.width <= m.cols && 0 <= roi.y &&
0 <= roi.height && roi.y + roi.height <= m.rows` and throws otherwise. -/
def Mat.roi {α : Type} (m : Mat α) (roi : Rect) : Except CvException (Mat α) :=
  if 0 ≤ roi.x ∧ 0 ≤ roi.width ∧ roi.x + roi.width ≤ m.cols ∧
      0 ≤ roi.y ∧ 0 ≤ roi.height ∧ roi.y + roi.height ≤ m.rows then
    .ok { rows := roi.height, cols := roi.width, px := fun r c => m.px (r + roi.y) (c + roi.x) }
  else
    .error .assertionFailed

/-- The sum `a00` of `contourArea`: over the closed polygon, the cross products
`prev.x * p.y - prev.y * p.x` of consecutive vertices. -/
def contourCross (prev : Point2i) : List Point2i → Int
  | [] => 0
  | p :: ps => prev.x * p.y - prev.y * p.x + contourCross p ps

/-- The OpenCV function `contourArea(contour)` (not oriented): `fabs(a00 * 0.5)`
with `prev` starting at the last vertex; 0 for an empty contour. -/
def contourArea (contour : List Point2i) : ℚ :=
  match contour.getLast? with
  | none => 0
  | some prev => |((contourCross prev contour : Int) : ℚ) * (1 / 2)|

/-- The OpenCV function `mean` on a contour matrix: the mean of each channel. -/
def mean (contour : List Point2i) : ℚ × ℚ :=
  (((contour.map Point2i.x).sum : Int) / (contour.length : ℚ),
   ((contour.map Point2i.y).sum : Int) / (contour.length : ℚ))

/-- The conversion of a `double` to `int`: truncation towards zero. -/
def truncToInt (v : ℚ) : Int :=
  if 0 ≤ v then ⌊v⌋ else ⌈v⌉

/-- Lines 184-185 of `main`:
`Scalar center = mean(contourMat); Point2i touchPoint(center[0], center[1]);` -/
def touchPointOf (contour : List Point2i) : Point2i :=
  let center := mean contour
  { x := truncToInt center.1, y := truncToInt center.2 }

/-- Lines 180-188 of `main`: the loop over the contours that collects
`touchPoints`, keeping a contour when `contourArea(contourMat) > touchMinArea`. -/
def collectTouchPoints : List (List Point2i) → List Point2i
  | [] => []
  | contour :: rest =>
    if contourArea contour > (touchMinArea : ℚ) then
      touchPointOf contour :: collectTouchPoints rest
    else
      collectTouchPoints rest

/-- The type of the OpenCV function `findContours(image, contours, CV_RETR_LIST,
CV_CHAIN_APPROX_SIMPLE, offset)`: from the image and the offset to the contours,
or an exception. -/
abbrev FindContours := Mat1b → Point2i → Except CvException (List (List Point2i))

/-- Lines 166-188 of `main`: the detection step, from the background and the
depth frame to `touchPoints`. -/
def detect (findContours : FindContours) (background depth : Mat1s)
    (xMin yMin xMax yMax : Int) : Except CvException (List Point2i) := do
  let touch := touchMask background depth
  let roi : Rect := { x := xMin, y := yMin, width := xMax - xMin, height := yMax - yMin }
  let touchRoi ← Mat.roi touch roi
  let contours ← findContours touchRoi { x := xMin, y := yMin }
  pure (collectTouchPoints contours)

/-- Line 195 of `main`: `cursorX = (touchPoints[i].x - xMin) / (xMax - xMin)`, a
`float` division rounded by `fl`. -/
def cursorX (fl : ℚ → ℚ) (xMin xMax : Int) (touchPoint : Point2i) : ℚ :=
  fl (((touchPoint.x : ℚ) - (xMin : ℚ)) / ((xMax - xMin : Int) : ℚ))

/-- Line 196 of `main`: `cursorY = 1 - (touchPoints[i].y - yMin)/(yMax - yMin)`,
a `float` division and a `float` subtraction, each rounded by `fl`. -/
def cursorY (fl : ℚ → ℚ) (yMin yMax : Int) (touchPoint : Point2i) : ℚ :=
  fl (1 - fl (((touchPoint.y : ℚ) - (yMin : ℚ)) / ((yMax - yMin : Int) : ℚ)))

/-! ## TUIO server -/

/-- Modelled from the spec: the lifecycle state of a cursor (TuioCursor.h is
missing), "lifecycle state ∈ {ACTIVE, STOPPED, REMOVED}". A removed cursor is
discarded: it is no longer in the cursor list and needs no state. -/
inductive CursorState where
  | active
  | stopped
deriving DecidableEq, Repr

/-- Modelled from the spec: the class `TuioCursor` (TuioCursor.h is missing).
"unique monotonically increasing session identifier ..., current normalized
position ..., last-updated frame index, lifecycle state"; `time` is what
`getTuioTime()` returns. -/
structure TuioCursor where
  sessionID : Nat
  xpos : ℚ
  ypos : ℚ
  time : Nat
  state : CursorState
deriving DecidableEq

/-- Modelled from the spec: an entry of the frame's batch of lifecycle events,
"each entry one of ADD(sessionId, x, y), UPDATE(sessionId, x, y),
REMOVE(sessionId)". -/
inductive TuioEvent where
  | add (sessionID : Nat) (x y : ℚ)
  | update (sessionID : Nat) (x y : ℚ)
  | remove (sessionID : Nat)
deriving DecidableEq

/-- The session identifier an event is about. -/
def TuioEvent.id : TuioEvent → Nat
  | .add s _ _ => s
  | .update s _ _ => s
  | .remove s => s

/-- The fields of `TuioServer` (`TuioServer.h`) that cursor tracking uses:
`cursorList`, `sessionID`, `currentFrameTime`; `events` is the batch of
lifecycle events of the current frame, the spec's "one ordered batch per
frame". -/
structure TuioServer where
  cursorList : List TuioCursor
  sessionID : Nat
  currentFrameTime : Nat
  events : List TuioEvent

/-- Modelled from the spec: the body of `TuioServer::initFrame` (TuioServer.cpp
is missing). "Initializes a new frame with the given TuioTime"; the event batch
of the frame starts empty. -/
def TuioServer.initFrame (tuio : TuioServer) (ttime : Nat) : TuioServer :=
  { tuio with currentFrameTime := ttime, events := [] }

/-- Modelled from the spec: the body of `TuioServer::addTuioCursor` (missing).
"create a new Cursor with a fresh, never-before-used session identifier, state
ACTIVE, emit an ADD event"; the cursor is stamped with the frame time and
appended to the list of cursors. -/
def TuioServer.addTuioCursor (tuio : TuioServer) (xp yp : ℚ) : TuioServer :=
  { tuio with
    cursorList := tuio.cursorList ++
      [{ sessionID := tuio.sessionID, xpos := xp, ypos := yp,
         time := tuio.currentFrameTime, state := .active }]
    sessionID := tuio.sessionID + 1
    events := tuio.events ++ [.add tuio.sessionID xp yp] }

/-- Modelled from the spec: the body of `TuioServer::updateTuioCursor`
(missing). "update its position, mark it matched-this-frame, emit an UPDATE
event": the referenced cursor gets the position, the frame time and the state
ACTIVE. The cursor is referenced by its session identifier. -/
def TuioServer.updateTuioCursor (tuio : TuioServer) (tcur : TuioCursor) (xp yp : ℚ) :
    TuioServer :=
  { tuio with
    cursorList := tuio.cursorList.map (fun c =>
      if c.sessionID = tcur.sessionID then
        { c with xpos := xp, ypos := yp, time := tuio.currentFrameTime, state := .active }
      else c)
    events := tuio.events ++ [.update tcur.sessionID xp yp] }

/-- Modelled from the spec: the "Euclidean distance" of a cursor to a point
(TuioCursor.h is missing), here its square; distances are compared through
their squares. -/
def TuioCursor.distSq (c : TuioCursor) (xp yp : ℚ) : ℚ :=
  (c.xpos - xp) * (c.xpos - xp) + (c.ypos - yp) * (c.ypos - yp)

/-- Modelled from the spec: the search of `getClosestTuioCursor` (missing). The
cursor of a list closest to a point, the first one among equally close ones;
none for the empty list. -/
def closestCursor (xp yp : ℚ) : List TuioCursor → Option TuioCursor
  | [] => none
  | c :: cs =>
    match closestCursor xp yp cs with
    | none => some c
    | some d => if c.distSq xp yp ≤ d.distSq xp yp then some c else some d

/-- Modelled from the spec: the body of `TuioServer::getClosestTuioCursor`
(missing). "Returns the TuioCursor closest to the provided coordinates or NULL if
there isn't any active TuioCursor" (TuioServer.h); the spec's query "nearest
active cursor to a point (or none)", with no maximum-distance cutoff. It ranges
over the whole cursor list. -/
def TuioServer.getClosestTuioCursor (tuio : TuioServer) (xp yp : ℚ) : Option TuioCursor :=
  closestCursor xp yp tuio.cursorList

/-- Modelled from the spec: the body of `TuioServer::getTuioCursor` (missing).
"Returns the TuioCursor corresponding to the provided Session ID or NULL". -/
def TuioServer.getTuioCursor (tuio : TuioServer) (s_id : Nat) : Option TuioCursor :=
  tuio.cursorList.find? (fun c => c.sessionID = s_id)

/-- Modelled from the spec: the body of `TuioServer::getTuioCursors` (missing).
"Returns a List of all currently active TuioCursors". -/
def TuioServer.getTuioCursors (tuio : TuioServer) : List TuioCursor :=
  tuio.cursorList

/-- Modelled from the spec: the body of `TuioServer::stopUntouchedMovingCursors`
(missing). "every previously ACTIVE cursor not matched this frame transitions to
STOPPED", without an event. The stop is stamped with the frame time, which is
what tells it from a cursor "already STOPPED before this frame's matching
pass". -/
def TuioServer.stopUntouchedMovingCursors (tuio : TuioServer) : TuioServer :=
  { tuio with
    cursorList := tuio.cursorList.map (fun c =>
      if c.time ≠ tuio.currentFrameTime ∧ c.state = .active then
        { c with time := tuio.currentFrameTime, state := .stopped }
      else c) }

/-- Modelled from the spec: the test of `removeUntouchedStoppedCursors`
(missing) for the cursors it removes, those "already STOPPED before this frame's
matching pass": stopped, and not stamped with the current frame time. -/
def TuioServer.untouchedStopped (tuio : TuioServer) (c : TuioCursor) : Bool :=
  decide (c.time ≠ tuio.currentFrameTime ∧ c.state = .stopped)

/-- Modelled from the spec: the body of
`TuioServer::removeUntouchedStoppedCursors` (missing). "Every cursor that was
already STOPPED before this frame's matching pass ... transitions to REMOVED, is
deleted from the active mapping, and emits a REMOVE event". -/
def TuioServer.removeUntouchedStoppedCursors (tuio : TuioServer) : TuioServer :=
  { tuio with
    cursorList := tuio.cursorList.filter (fun c => !tuio.untouchedStopped c)
    events := tuio.events ++
      ((tuio.cursorList.filter tuio.untouchedStopped).map (fun c => .remove c.sessionID)) }

/-- Modelled from the spec: the body of `TuioServer::commitFrame` (missing).
"Commits the current frame": the batch of events is handed over as it stands,
the cursors are left as they are. -/
def TuioServer.commitFrame (tuio : TuioServer) : TuioServer :=
  tuio

/-! ## The frame loop of `main` -/

/-- Lines 195-203 of `main`: the body of the loop over `touchPoints`. -/
def matchStep (fl : ℚ → ℚ) (xMin yMin xMax yMax : Int) (time : Nat)
    (tuio : TuioServer) (touchPoint : Point2i) : TuioServer :=
  let cx := cursorX fl xMin xMax touchPoint
  let cy := cursorY fl yMin yMax touchPoint
  match tuio.getClosestTuioCursor cx cy with
  | none => tuio.addTuioCursor cx cy
  | some cursor =>
    if cursor.time = time then tuio.addTuioCursor cx cy
    else tuio.updateTuioCursor cursor cx cy

/-- Lines 194-204 of `main`: the loop over `touchPoints`. -/
def matchLoop (fl : ℚ → ℚ) (xMin yMin xMax yMax : Int) (time : Nat)
    (tuio : TuioServer) (touchPoints : List Point2i) : TuioServer :=
  touchPoints.foldl (matchStep fl xMin yMin xMax yMax time) tuio

/-- Lines 206-208 of `main`: `stopUntouchedMovingCursors();
removeUntouchedStoppedCursors(); commitFrame();`. -/
def endOfFrame (tuio : TuioServer) : TuioServer :=
  tuio.stopUntouchedMovingCursors.removeUntouchedStoppedCursors.commitFrame

/-- Lines 190-208 of `main`: `initFrame(time)`, the loop over `touchPoints`, and
the end of the frame. -/
def trackFrame (fl : ℚ → ℚ) (xMin yMin xMax yMax : Int) (time : Nat)
    (tuio : TuioServer) (touchPoints : List Point2i) : TuioServer :=
  endOfFrame (matchLoop fl xMin yMin xMax yMax time (tuio.initFrame time) touchPoints)

/-- Lines 166-208 of `main`: one pass of the frame loop, from the depth frame to
the server's state after `commitFrame`. -/
def frame (findContours : FindContours) (fl : ℚ → ℚ) (background depth : Mat1s)
    (xMin yMin xMax yMax : Int) (time : Nat) (tuio : TuioServer) :
    Except CvException TuioServer := do
  let touchPoints ← detect findContours background depth xMin yMin xMax yMax
  pure (trackFrame fl xMin yMin xMax yMax time tuio touchPoints)

/-- A failure of the detection step as its caller sees it. The spec names the
kind `InvalidConfiguration` for a degenerate ROI (sections 4.2 and 7); the code
can fail only by the `cv::Exception` of an OpenCV call. -/
inductive DetectFailure where
  | invalidConfiguration
  | cvException (e : CvException)
deriving DecidableEq, Repr

/-- The detection step of `main` with its failures classified. Lines 166-188 of
`main` hold no check of the ROI and no `throw`: a failure is always the exception
of an OpenCV call, which `main` does not catch. -/
def detectOutcome (findContours : FindContours) (background depth : Mat1s)
    (xMin yMin xMax yMax : Int) : Except DetectFailure (List Point2i) :=
  match detect findContours background depth xMin yMin xMax yMax with
  | .ok touchPoints => .ok touchPoints
  | .error e => .error (.cvException e)

/-! ## A `findContours` for single rectangles, and its contracts -/

/-- The first index at which `p` holds among the `n` indices `i, i+1, ...`. -/
def firstIdx (p : Int → Bool) : Nat → Int → Option Int
  | 0, _ => none
  | n + 1, i => if p i then some i else firstIdx p n (i + 1)

/-- The first index at which `p` holds among the `n` indices `i, i-1, ...`. -/
def lastIdx (p : Int → Bool) : Nat → Int → Option Int
  | 0, _ => none
  | n + 1, i => if p i then some i else lastIdx p n (i - 1)

/-- Whether row `r` of the image has a non-zero pixel. -/
def rowHasPixel (m : Mat1b) (r : Int) : Bool :=
  (firstIdx (fun c => decide (m.px r c ≠ 0)) m.cols.toNat 0).isSome

/-- An instance of `FindContours` for images that hold at most one filled,
axis-aligned rectangle: from the first and the last row with a non-zero pixel
and the first and the last non-zero pixel of that first row, the rectangle's
four corners, shifted by the offset, in the order top-left, bottom-left,
bottom-right, top-right; no contour for an image (with pixels) without non-zero
pixel. It instantiates the parameter `findContours` in examples. On an image
without rows or without columns it raises; neither contract below covers such an
image and no statement on a degenerate ROI rests on this answer. -/
def boxContours : FindContours := fun m offset =>
  if m.rows ≤ 0 ∨ m.cols ≤ 0 then .error .assertionFailed
  else
    match firstIdx (rowHasPixel m) m.rows.toNat 0 with
    | none => .ok []
    | some r0 =>
      match lastIdx (rowHasPixel m) m.rows.toNat (m.rows - 1),
          firstIdx (fun c => decide (m.px r0 c ≠ 0)) m.cols.toNat 0,
          lastIdx (fun c => decide (m.px r0 c ≠ 0)) m.cols.toNat (m.cols - 1) with
      | some r1, some c0, some c1 =>
        .ok [[⟨c0 + offset.x, r0 + offset.y⟩, ⟨c0 + offset.x, r1 + offset.y⟩,
              ⟨c1 + offset.x, r1 + offset.y⟩, ⟨c1 + offset.x, r0 + offset.y⟩]]
      | _, _, _ => .ok []

/-- The non-zero pixels of the image are those of the filled rectangle of
columns `c0..c1` and rows `r0..r1`. -/
def IsFilledRect (m : Mat1b) (c0 r0 c1 r1 : Int) : Prop :=
  ∀ r c, 0 ≤ r → r < m.rows → 0 ≤ c → c < m.cols →
    (m.px r c ≠ 0 ↔ (r0 ≤ r ∧ r ≤ r1 ∧ c0 ≤ c ∧ c ≤ c1))

/-- Contract of `findContours` with `CV_RETR_LIST` and `CV_CHAIN_APPROX_SIMPLE`
on an image whose non-zero pixels form one filled rectangle that does not touch
the image's outermost rows and columns: one contour, the four corner pixels of
the rectangle shifted by the offset ("an up-right rectangular contour is encoded
with 4 points"). -/
def FindsFilledRect (fc : FindContours) : Prop :=
  ∀ (m : Mat1b) (offset : Point2i) (c0 r0 c1 r1 : Int),
    1 ≤ c0 → c0 < c1 → c1 + 1 < m.cols → 1 ≤ r0 → r0 < r1 → r1 + 1 < m.rows →
    IsFilledRect m c0 r0 c1 r1 →
    fc m offset =
      .ok [[⟨c0 + offset.x, r0 + offset.y⟩, ⟨c0 + offset.x, r1 + offset.y⟩,
            ⟨c1 + offset.x, r1 + offset.y⟩, ⟨c1 + offset.x, r0 + offset.y⟩]]

/-- Contract of `findContours`: the points of the contours it returns are pixels
of the image, shifted by the offset. -/
def ContoursInImage (fc : FindContours) : Prop :=
  ∀ (m : Mat1b) (offset : Point2i) (contours : List (List Point2i)),
    fc m offset = .ok contours → ∀ contour ∈ contours, ∀ p ∈ contour,
      offset.x ≤ p.x ∧ p.x < offset.x + m.cols ∧ offset.y ≤ p.y ∧ p.y < offset.y + m.rows

/-- A background of uniform depth `D`. -/
def uniformMat (rows cols D : Int) : Mat1s :=
  { rows := rows, cols := cols, px := fun _ _ => D }

/-- A depth frame equal to `D` except on the square block of side `s` with
top-left pixel `(x0, y0)`, where it is `D - k`. -/
def blockMat (rows cols D k x0 y0 s : Int) : Mat1s :=
  { rows := rows, cols := cols,
    px := fun r c => if y0 ≤ r ∧ r < y0 + s ∧ x0 ≤ c ∧ c < x0 + s then D - k else D }

/-! ## Predicates used in the statements -/

/-- Session identifiers of the cursors are pairwise distinct and below the
server's counter `sessionID`. -/
def TuioServer.WellFormed (tuio : TuioServer) : Prop :=
  (tuio.cursorList.map TuioCursor.sessionID).Nodup ∧
    ∀ c ∈ tuio.cursorList, c.sessionID < tuio.sessionID

/-- The event `e` is the one call, `addTuioCursor` or `updateTuioCursor`, that
the touch point `tp` causes: an ADD or an UPDATE at its normalized position. -/
def CausedBy (fl : ℚ → ℚ) (xMin yMin xMax yMax : Int) (tp : Point2i) (e : TuioEvent) : Prop :=
  ∃ s : Nat, e = .add s (cursorX fl xMin xMax tp) (cursorY fl yMin yMax tp) ∨
    e = .update s (cursorX fl xMin xMax tp) (cursorY fl yMin yMax tp)

/-- Invariant of the loop over `touchPoints` in a frame of time `t`: the server
is well formed and in frame `t`, the events of the frame concern pairwise
distinct cursors, each of them in the list and stamped `t`. -/
def FrameInv (t : Nat) (tuio : TuioServer) : Prop :=
  tuio.WellFormed ∧ tuio.currentFrameTime = t ∧
    (tuio.events.map TuioEvent.id).Nodup ∧
    ∀ e ∈ tuio.events, ∃ c ∈ tuio.cursorList, c.sessionID = e.id ∧ c.time = t

/-- A server state used in examples: cursor 0 at (1/5, 1/2) and cursor 1 at
(9/10, 1/2), both active and last matched at time 0. -/
def twoCursors : TuioServer :=
  { cursorList := [⟨0, 1 / 5, 1 / 2, 0, .active⟩, ⟨1, 9 / 10, 1 / 2, 0, .active⟩],
    sessionID := 2, currentFrameTime := 0, events := [] }

/-- A server state used in examples: no cursor, counter of session identifiers
at 0. -/
def noCursors : TuioServer :=
  { cursorList := [], sessionID := 0, currentFrameTime := 0, events := [] }

/-! ## Theorems: touch mask -/

theorem saturateShort_band (v : Int) :
    (touchDepthMin < saturateShort v ∧ saturateShort v < touchDepthMax) ↔
      (touchDepthMin < v ∧ v < touchDepthMax) := by
  unfold saturateShort touchDepthMin touchDepthMax
  split_ifs <;> omega

theorem touchMask_px_ne_zero_iff (background depth : Mat1s) (r c : Int) :
    (touchMask background depth).px r c ≠ 0 ↔
      (touchDepthMin < background.px r c - depth.px r c ∧
        background.px r c - depth.px r c < touchDepthMax) := by
  rw [← saturateShort_band]
  simp only [touchMask, Mat1b.and, Mat1s.gt, Mat1s.lt, Mat1s.sub]
  split_ifs with h1 h2 h2
  · exact ⟨fun _ => ⟨h1, h2⟩, fun _ => by decide⟩
  · exact ⟨fun h => absurd rfl h, fun h => absurd h.2 h2⟩
  · exact ⟨fun h => absurd rfl h, fun h => absurd h.1 h1⟩
  · exact ⟨fun h => absurd rfl h, fun h => absurd h.1 h1⟩

/-- C1: the touch mask of the frame loop is set (255) at a pixel exactly when
`touchDepthMin < background(p) - depth(p) < touchDepthMax` for the exact integer
difference, both bounds strict with `touchDepthMin = 10`, `touchDepthMax = 20`,
and it is 0 otherwise; the saturating subtraction does not change the test. -/
theorem touchMask_iff_band (background depth : Mat1s) (r c : Int) :
    touchDepthMin = 10 ∧ touchDepthMax = 20 ∧
    ((touchMask background depth).px r c = 255 ↔
      (touchDepthMin < background.px r c - depth.px r c ∧
        background.px r c - depth.px r c < touchDepthMax)) ∧
    ((touchMask background depth).px r c = 0 ↔
      ¬ (touchDepthMin < background.px r c - depth.px r c ∧
        background.px r c - depth.px r c < touchDepthMax)) := by
  refine ⟨rfl, rfl, ?_, ?_⟩
  · rw [← saturateShort_band]
    simp only [touchMask, Mat1b.and, Mat1s.gt, Mat1s.lt, Mat1s.sub]
    split_ifs with h1 h2 h2
    · exact ⟨fun _ => ⟨h1, h2⟩, fun _ => by decide⟩
    · exact ⟨fun h => absurd h (by decide), fun h => absurd h.2 h2⟩
    · exact ⟨fun h => absurd h (by decide), fun h => absurd h.1 h1⟩
    · exact ⟨fun h => absurd h (by decide), fun h => absurd h.1 h1⟩
  · rw [← saturateShort_band]
    simp only [touchMask, Mat1b.and, Mat1s.gt, Mat1s.lt, Mat1s.sub]
    split_ifs with h1 h2 h2
    · exact ⟨fun h => absurd h (by decide), fun h => absurd ⟨h1, h2⟩ h⟩
    · exact ⟨fun _ h => h2 h.2, fun _ => by decide⟩
    · exact ⟨fun _ h => h1 h.1, fun _ => by decide⟩
    · exact ⟨fun _ h => h1 h.1, fun _ => by decide⟩

/-! ## Theorems: matching of touch points to cursors -/

theorem closestCursor_eq_none_iff (xp yp : ℚ) (l : List TuioCursor) :
    closestCursor xp yp l = none ↔ l = [] := by
  cases l with
  | nil => simp [closestCursor]
  | cons c cs =>
    simp only [closestCursor]
    cases closestCursor xp yp cs with
    | none => simp
    | some d =>
      simp only
      split_ifs <;> simp

theorem closestCursor_mem (xp yp : ℚ) (l : List TuioCursor) (c : TuioCursor)
    (h : closestCursor xp yp l = some c) : c ∈ l := by
  induction l generalizing c with
  | nil => simp [closestCursor] at h
  | cons a as ih =>
    simp only [closestCursor] at h
    cases hcs : closestCursor xp yp as with
    | none =>
      rw [hcs] at h
      simp only [Option.some.injEq] at h
      simp [h]
    | some d =>
      rw [hcs] at h
      simp only at h
      split_ifs at h with hle
      · simp only [Option.some.injEq] at h
        simp [h]
      · simp only [Option.some.injEq] at h
        subst h
        exact List.mem_cons_of_mem _ (ih d hcs)

theorem closestCursor_le (xp yp : ℚ) (l : List TuioCursor) (c : TuioCursor)
    (h : closestCursor xp yp l = some c) :
    ∀ d ∈ l, c.distSq xp yp ≤ d.distSq xp yp := by
  induction l generalizing c with
  | nil => simp [closestCursor] at h
  | cons a as ih =>
    simp only [closestCursor] at h
    cases hcs : closestCursor xp yp as with
    | none =>
      rw [hcs] at h
      simp only [Option.some.injEq] at h
      have hnil : as = [] := (closestCursor_eq_none_iff xp yp as).1 hcs
      subst hnil
      subst h
      intro d hd
      simp only [List.mem_singleton] at hd
      rw [hd]
    | some e =>
      rw [hcs] at h
      simp only at h
      have he := ih e hcs
      split_ifs at h with hle
      · simp only [Option.some.injEq] at h
        subst h
        intro d hd
        rcases List.mem_cons.1 hd with rfl | hd
        · exact le_refl _
        · exact le_trans hle (he d hd)
      · simp only [Option.some.injEq] at h
        subst h
        intro d hd
        rcases List.mem_cons.1 hd with rfl | hd
        · exact le_of_lt (lt_of_not_le hle)
        · exact he d hd

theorem matchStep_add_or_update (fl : ℚ → ℚ) (xMin yMin xMax yMax : Int) (time : Nat)
    (tuio : TuioServer) (tp : Point2i) :
    matchStep fl xMin yMin xMax yMax time tuio tp =
      tuio.addTuioCursor (cursorX fl xMin xMax tp) (cursorY fl yMin yMax tp) ∨
    ∃ c ∈ tuio.cursorList, c.time ≠ time ∧
      matchStep fl xMin yMin xMax yMax time tuio tp =
        tuio.updateTuioCursor c (cursorX fl xMin xMax tp) (cursorY fl yMin yMax tp) := by
  cases hc : tuio.getClosestTuioCursor (cursorX fl xMin xMax tp) (cursorY fl yMin yMax tp) with
  | none =>
    left
    simp only [matchStep, hc]
  | some c =>
    by_cases ht : c.time = time
    · left
      simp only [matchStep, hc, ht, if_true]
    · right
      refine ⟨c, closestCursor_mem _ _ _ _ hc, ht, ?_⟩
      simp only [matchStep, hc, ht, if_false]

/-- C2 (amended): for every touch point, `main` looks up the cursor nearest to
the normalized position among all cursors of the server, matched in this frame
or not. With no cursor at all, or when that nearest cursor carries the time
stamp of the current frame, a cursor is added; otherwise that nearest cursor is
updated. -/
theorem matchStep_nearest_of_all (fl : ℚ → ℚ) (xMin yMin xMax yMax : Int) (time : Nat)
    (tuio : TuioServer) (touchPoint : Point2i) :
    (tuio.cursorList = [] ∧
      matchStep fl xMin yMin xMax yMax time tuio touchPoint =
        tuio.addTuioCursor (cursorX fl xMin xMax touchPoint) (cursorY fl yMin yMax touchPoint)) ∨
    (∃ c ∈ tuio.cursorList,
      (∀ d ∈ tuio.cursorList,
        c.distSq (cursorX fl xMin xMax touchPoint) (cursorY fl yMin yMax touchPoint) ≤
          d.distSq (cursorX fl xMin xMax touchPoint) (cursorY fl yMin yMax touchPoint)) ∧
      ((c.time = time ∧
          matchStep fl xMin yMin xMax yMax time tuio touchPoint =
            tuio.addTuioCursor (cursorX fl xMin xMax touchPoint)
              (cursorY fl yMin yMax touchPoint)) ∨
       (c.time ≠ time ∧
          matchStep fl xMin yMin xMax yMax time tuio touchPoint =
            tuio.updateTuioCursor c (cursorX fl xMin xMax touchPoint)
              (cursorY fl yMin yMax touchPoint)))) := by
  cases hc : tuio.getClosestTuioCursor (cursorX fl xMin xMax touchPoint)
      (cursorY fl yMin yMax touchPoint) with
  | none =>
    left
    refine ⟨(closestCursor_eq_none_iff _ _ _).1 hc, ?_⟩
    simp only [matchStep, hc]
  | some c =>
    right
    refine ⟨c, closestCursor_mem _ _ _ _ hc, closestCursor_le _ _ _ _ hc, ?_⟩
    by_cases ht : c.time = time
    · left
      refine ⟨ht, ?_⟩
      simp only [matchStep, hc, ht, if_true]
    · right
      refine ⟨ht, ?_⟩
      simp only [matchStep, hc, ht, if_false]

/-- C2 (counterexample): the default ROI (110,120)-(560,320); two cursors from
an earlier frame, 0 at (1/5, 1/2) and 1 at (9/10, 1/2); touch points (200, 220)
and (290, 220), normalized (1/5, 1/2) and (2/5, 1/2). The first touch point
updates cursor 0. The second is nearest to cursor 0, which is already matched,
and a cursor is added although cursor 1 is still unmatched (it keeps its time
stamp 0). -/
theorem matchLoop_adds_despite_unmatched_cursor :
    (matchLoop id 110 120 560 320 1 (twoCursors.initFrame 1)
      [⟨200, 220⟩, ⟨290, 220⟩]).events
      = [.update 0 (1 / 5) (1 / 2), .add 2 (2 / 5) (1 / 2)] ∧
    (matchLoop id 110 120 560 320 1 (twoCursors.initFrame 1)
      [⟨200, 220⟩, ⟨290, 220⟩]).cursorList
      = [⟨0, 1 / 5, 1 / 2, 1, .active⟩, ⟨1, 9 / 10, 1 / 2, 0, .active⟩,
         ⟨2, 2 / 5, 1 / 2, 1, .active⟩] := by
  norm_num [matchLoop, matchStep, twoCursors, TuioServer.initFrame,
    TuioServer.getClosestTuioCursor, closestCursor, TuioCursor.distSq, cursorX, cursorY,
    TuioServer.addTuioCursor, TuioServer.updateTuioCursor]

/-! ## Theorems: one frame of matching -/

theorem map_sessionID_update (l : List TuioCursor) (k : Nat) (xp yp : ℚ) (t : Nat) :
    (l.map (fun c => if c.sessionID = k then
        ({ c with xpos := xp, ypos := yp, time := t, state := .active } : TuioCursor)
      else c)).map TuioCursor.sessionID = l.map TuioCursor.sessionID := by
  induction l with
  | nil => rfl
  | cons a as ih =>
    simp only [List.map_cons, ih]
    split_ifs <;> rfl

theorem eq_of_sessionID_eq (l : List TuioCursor)
    (hnd : (l.map TuioCursor.sessionID).Nodup) (a b : TuioCursor)
    (ha : a ∈ l) (hb : b ∈ l) (h : a.sessionID = b.sessionID) : a = b :=
  List.inj_on_of_nodup_map hnd ha hb h

theorem frameInv_addTuioCursor (t : Nat) (tuio : TuioServer) (xp yp : ℚ)
    (h : FrameInv t tuio) : FrameInv t (tuio.addTuioCursor xp yp) := by
  obtain ⟨⟨hnd, hlt⟩, ht, hev, hmem⟩ := h
  have hfresh : tuio.sessionID ∉ tuio.cursorList.map TuioCursor.sessionID := by
    intro hin
    obtain ⟨c, hc, hid⟩ := List.mem_map.1 hin
    have := hlt c hc
    omega
  refine ⟨⟨?_, ?_⟩, ht, ?_, ?_⟩
  · simp only [TuioServer.addTuioCursor, List.map_append, List.map_cons, List.map_nil]
    rw [List.nodup_append]
    refine ⟨hnd, List.nodup_singleton _, ?_⟩
    intro a ha hb
    simp only [List.mem_singleton] at hb
    subst hb
    exact hfresh ha
  · intro c hc
    simp only [TuioServer.addTuioCursor, List.mem_append, List.mem_singleton] at hc ⊢
    rcases hc with hc | hc
    · have := hlt c hc
      omega
    · subst hc
      simp
  · simp only [TuioServer.addTuioCursor, List.map_append, List.map_cons, List.map_nil,
      TuioEvent.id]
    rw [List.nodup_append]
    refine ⟨hev, List.nodup_singleton _, ?_⟩
    intro a ha hb
    simp only [List.mem_singleton] at hb
    subst hb
    obtain ⟨e, he, hid⟩ := List.mem_map.1 ha
    obtain ⟨c, hc, hcid, _⟩ := hmem e he
    have := hlt c hc
    omega
  · intro e he
    simp only [TuioServer.addTuioCursor, List.mem_append, List.mem_singleton] at he ⊢
    rcases he with he | he
    · obtain ⟨c, hc, hcid, hct⟩ := hmem e he
      exact ⟨c, Or.inl hc, hcid, hct⟩
    · subst he
      exact ⟨_, Or.inr rfl, rfl, ht⟩

theorem frameInv_updateTuioCursor (t : Nat) (tuio : TuioServer) (tcur : TuioCursor)
    (xp yp : ℚ) (h : FrameInv t tuio) (hin : tcur ∈ tuio.cursorList) (hne : tcur.time ≠ t) :
    FrameInv t (tuio.updateTuioCursor tcur xp yp) := by
  obtain ⟨⟨hnd, hlt⟩, ht, hev, hmem⟩ := h
  have hkeep : ∀ c ∈ tuio.cursorList, ∃ c2 ∈ (tuio.updateTuioCursor tcur xp yp).cursorList,
      c2.sessionID = c.sessionID ∧ (c.time = t ∨ c.sessionID = tcur.sessionID → c2.time = t) := by
    intro c hc
    by_cases hid : c.sessionID = tcur.sessionID
    · refine ⟨⟨c.sessionID, xp, yp, tuio.currentFrameTime, .active⟩, ?_, rfl, fun _ => ht⟩
      simp only [TuioServer.updateTuioCursor, List.mem_map]
      exact ⟨c, hc, by simp [hid]⟩
    · refine ⟨c, ?_, rfl, fun h => h.resolve_right hid⟩
      simp only [TuioServer.updateTuioCursor, List.mem_map]
      exact ⟨c, hc, by simp [hid]⟩
  refine ⟨⟨?_, ?_⟩, ht, ?_, ?_⟩
  · simp only [TuioServer.updateTuioCursor, map_sessionID_update]
    exact hnd
  · intro c hc
    have hc2 : c.sessionID ∈ (tuio.updateTuioCursor tcur xp yp).cursorList.map
        TuioCursor.sessionID := List.mem_map_of_mem _ hc
    simp only [TuioServer.updateTuioCursor, map_sessionID_update] at hc2
    obtain ⟨d, hd, hdid⟩ := List.mem_map.1 hc2
    have := hlt d hd
    simp only [TuioServer.updateTuioCursor]
    omega
  · simp only [TuioServer.updateTuioCursor, List.map_append, List.map_cons, List.map_nil,
      TuioEvent.id]
    rw [List.nodup_append]
    refine ⟨hev, List.nodup_singleton _, ?_⟩
    intro a ha hb
    simp only [List.mem_singleton] at hb
    subst hb
    obtain ⟨e, he, hid⟩ := List.mem_map.1 ha
    obtain ⟨c, hc, hcid, hct⟩ := hmem e he
    have hceq : c = tcur := eq_of_sessionID_eq _ hnd c tcur hc hin (by rw [hcid, hid])
    exact hne (hceq ▸ hct)
  · intro e he
    simp only [TuioServer.updateTuioCursor, List.mem_append, List.mem_singleton] at he
    rcases he with he | he
    · obtain ⟨c, hc, hcid, hct⟩ := hmem e he
      obtain ⟨c2, hc2, hid2, ht2⟩ := hkeep c hc
      exact ⟨c2, hc2, by rw [hid2, hcid], ht2 (Or.inl hct)⟩
    · subst he
      obtain ⟨c2, hc2, hid2, ht2⟩ := hkeep tcur hin
      exact ⟨c2, hc2, hid2, ht2 (Or.inr rfl)⟩

theorem matchStep_frameInv (fl : ℚ → ℚ) (xMin yMin xMax yMax : Int) (t : Nat)
    (tuio : TuioServer) (tp : Point2i) (h : FrameInv t tuio) :
    FrameInv t (matchStep fl xMin yMin xMax yMax t tuio tp) ∧
    ∃ e, CausedBy fl xMin yMin xMax yMax tp e ∧
      (matchStep fl xMin yMin xMax yMax t tuio tp).events = tuio.events ++ [e] := by
  rcases matchStep_add_or_update fl xMin yMin xMax yMax t tuio tp with
    hstep | ⟨c, hc, hne, hstep⟩
  · rw [hstep]
    exact ⟨frameInv_addTuioCursor t tuio _ _ h, _, ⟨tuio.sessionID, Or.inl rfl⟩, rfl⟩
  · rw [hstep]
    exact ⟨frameInv_updateTuioCursor t tuio c _ _ h hc hne, _,
      ⟨c.sessionID, Or.inr rfl⟩, rfl⟩

theorem matchLoop_frameInv (fl : ℚ → ℚ) (xMin yMin xMax yMax : Int) (t : Nat)
    (tps : List Point2i) (tuio : TuioServer) (h : FrameInv t tuio) :
    FrameInv t (matchLoop fl xMin yMin xMax yMax t tuio tps) ∧
    ∃ es, List.Forall₂ (CausedBy fl xMin yMin xMax yMax) tps es ∧
      (matchLoop fl xMin yMin xMax yMax t tuio tps).events = tuio.events ++ es := by
  induction tps generalizing tuio with
  | nil => exact ⟨h, [], List.Forall₂.nil, by simp [matchLoop]⟩
  | cons tp rest ih =>
    obtain ⟨hinv, e, hce, hev⟩ := matchStep_frameInv fl xMin yMin xMax yMax t tuio tp h
    obtain ⟨hinv2, es, hfa, hev2⟩ := ih _ hinv
    refine ⟨hinv2, e :: es, List.Forall₂.cons hce hfa, ?_⟩
    have : matchLoop fl xMin yMin xMax yMax t tuio (tp :: rest) =
        matchLoop fl xMin yMin xMax yMax t (matchStep fl xMin yMin xMax yMax t tuio tp) rest :=
      rfl
    rw [this, hev2, hev]
    simp

theorem frameInv_initFrame (t : Nat) (tuio : TuioServer) (hwf : tuio.WellFormed) :
    FrameInv t (tuio.initFrame t) :=
  ⟨hwf, rfl, List.nodup_nil, fun e he => absurd he (List.not_mem_nil e)⟩

/-- C3: in one frame (`initFrame(time)` followed by the loop over the touch
points) on a well-formed server, whatever the time stamps of the cursors carried
over: the events of the frame correspond one to one, in order, to the touch
points, each being the ADD or the UPDATE at that touch point's normalized
position, and the cursors they concern are pairwise distinct, so that no cursor
is updated twice, and none is updated after having been added or updated. -/
theorem matchLoop_partial_bijection (fl : ℚ → ℚ) (xMin yMin xMax yMax : Int) (time : Nat)
    (tuio : TuioServer) (touchPoints : List Point2i) (hwf : tuio.WellFormed) :
    List.Forall₂ (CausedBy fl xMin yMin xMax yMax) touchPoints
      (matchLoop fl xMin yMin xMax yMax time (tuio.initFrame time) touchPoints).events ∧
    ((matchLoop fl xMin yMin xMax yMax time (tuio.initFrame time) touchPoints).events.map
      TuioEvent.id).Nodup := by
  obtain ⟨hinv, es, hfa, hev⟩ :=
    matchLoop_frameInv fl xMin yMin xMax yMax time touchPoints _ (frameInv_initFrame time tuio hwf)
  refine ⟨?_, hinv.2.2.1⟩
  rw [hev]
  simpa [TuioServer.initFrame] using hfa

/-- C3 (witness): the two cursors of `twoCursors` and three touch points in the
default ROI. -/
theorem matchLoop_partial_bijection_witness :
    List.Forall₂ (CausedBy id 110 120 560 320) [⟨200, 220⟩, ⟨290, 220⟩, ⟨515, 220⟩]
      (matchLoop id 110 120 560 320 1 (twoCursors.initFrame 1)
        [⟨200, 220⟩, ⟨290, 220⟩, ⟨515, 220⟩]).events ∧
    ((matchLoop id 110 120 560 320 1 (twoCursors.initFrame 1)
        [⟨200, 220⟩, ⟨290, 220⟩, ⟨515, 220⟩]).events.map TuioEvent.id).Nodup :=
  matchLoop_partial_bijection id 110 120 560 320 1 twoCursors
    [⟨200, 220⟩, ⟨290, 220⟩, ⟨515, 220⟩]
    (by unfold twoCursors; exact ⟨by decide, by decide⟩)

/-! ## Theorems: identity stability -/

theorem trackFrame_single (fl : ℚ → ℚ) (xMin yMin xMax yMax : Int) (time : Nat)
    (tuio : TuioServer) (c : TuioCursor) (touchPoint : Point2i)
    (hone : tuio.cursorList = [c]) (hprev : c.time ≠ time) :
    trackFrame fl xMin yMin xMax yMax time tuio [touchPoint] =
      { cursorList := [⟨c.sessionID, cursorX fl xMin xMax touchPoint,
          cursorY fl yMin yMax touchPoint, time, .active⟩],
        sessionID := tuio.sessionID, currentFrameTime := time,
        events := [.update c.sessionID (cursorX fl xMin xMax touchPoint)
          (cursorY fl yMin yMax touchPoint)] } := by
  simp [trackFrame, endOfFrame, matchLoop, matchStep, TuioServer.initFrame,
    TuioServer.getClosestTuioCursor, closestCursor, hone, hprev,
    TuioServer.updateTuioCursor, TuioServer.stopUntouchedMovingCursors,
    TuioServer.removeUntouchedStoppedCursors, TuioServer.commitFrame,
    TuioServer.untouchedStopped]

/-- C4: with exactly one cursor on the server, stamped with another time than
the frame's, and exactly one touch point, the frame updates that cursor: it
keeps its session identifier, takes the touch point's normalized position and
the frame time, no cursor is added (the list still has one cursor, the counter
of session identifiers has not moved), and the only event is the UPDATE. The
same holds for the frame after it, at another time and with one touch point
again: its only event is the UPDATE of the same session identifier. -/
theorem single_cursor_keeps_identity (fl : ℚ → ℚ) (xMin yMin xMax yMax : Int)
    (time time2 : Nat) (tuio : TuioServer) (c : TuioCursor) (touchPoint touchPoint2 : Point2i)
    (hone : tuio.cursorList = [c]) (hprev : c.time ≠ time) (hnext : time ≠ time2) :
    (trackFrame fl xMin yMin xMax yMax time tuio [touchPoint]).cursorList =
      [⟨c.sessionID, cursorX fl xMin xMax touchPoint, cursorY fl yMin yMax touchPoint,
        time, .active⟩] ∧
    (trackFrame fl xMin yMin xMax yMax time tuio [touchPoint]).events =
      [.update c.sessionID (cursorX fl xMin xMax touchPoint)
        (cursorY fl yMin yMax touchPoint)] ∧
    (trackFrame fl xMin yMin xMax yMax time tuio [touchPoint]).sessionID = tuio.sessionID ∧
    (trackFrame fl xMin yMin xMax yMax time2
      (trackFrame fl xMin yMin xMax yMax time tuio [touchPoint]) [touchPoint2]).cursorList =
      [⟨c.sessionID, cursorX fl xMin xMax touchPoint2, cursorY fl yMin yMax touchPoint2,
        time2, .active⟩] ∧
    (trackFrame fl xMin yMin xMax yMax time2
      (trackFrame fl xMin yMin xMax yMax time tuio [touchPoint]) [touchPoint2]).events =
      [.update c.sessionID (cursorX fl xMin xMax touchPoint2)
        (cursorY fl yMin yMax touchPoint2)] := by
  have h1 := trackFrame_single fl xMin yMin xMax yMax time tuio c touchPoint hone hprev
  have h2 := trackFrame_single fl xMin yMin xMax yMax time2
    (trackFrame fl xMin yMin xMax yMax time tuio [touchPoint])
    ⟨c.sessionID, cursorX fl xMin xMax touchPoint, cursorY fl yMin yMax touchPoint,
      time, .active⟩ touchPoint2 (by rw [h1]) hnext
  refine ⟨?_, ?_, ?_, ?_, ?_⟩
  · rw [h1]
  · rw [h1]
  · rw [h1]
  · rw [h2]
  · rw [h2]

/-- C4 (witness): the cursor 7 at (1/2, 1/2), last touched at time 3, and the
touch point (335, 220) of the default ROI in the frames of time 4 and 5. -/
theorem single_cursor_keeps_identity_witness :
    (trackFrame id 110 120 560 320 4
      { cursorList := [⟨7, 1 / 2, 1 / 2, 3, .active⟩], sessionID := 8,
        currentFrameTime := 3, events := [] } [⟨335, 220⟩]).cursorList =
      [⟨7, cursorX id 110 560 ⟨335, 220⟩, cursorY id 120 320 ⟨335, 220⟩, 4, .active⟩] ∧
    (trackFrame id 110 120 560 320 4
      { cursorList := [⟨7, 1 / 2, 1 / 2, 3, .active⟩], sessionID := 8,
        currentFrameTime := 3, events := [] } [⟨335, 220⟩]).events =
      [.update 7 (cursorX id 110 560 ⟨335, 220⟩) (cursorY id 120 320 ⟨335, 220⟩)] ∧
    (trackFrame id 110 120 560 320 4
      { cursorList := [⟨7, 1 / 2, 1 / 2, 3, .active⟩], sessionID := 8,
        currentFrameTime := 3, events := [] } [⟨335, 220⟩]).sessionID = 8 ∧
    (trackFrame id 110 120 560 320 5
      (trackFrame id 110 120 560 320 4
        { cursorList := [⟨7, 1 / 2, 1 / 2, 3, .active⟩], sessionID := 8,
          currentFrameTime := 3, events := [] } [⟨335, 220⟩]) [⟨335, 220⟩]).cursorList =
      [⟨7, cursorX id 110 560 ⟨335, 220⟩, cursorY id 120 320 ⟨335, 220⟩, 5, .active⟩] ∧
    (trackFrame id 110 120 560 320 5
      (trackFrame id 110 120 560 320 4
        { cursorList := [⟨7, 1 / 2, 1 / 2, 3, .active⟩], sessionID := 8,
          currentFrameTime := 3, events := [] } [⟨335, 220⟩]) [⟨335, 220⟩]).events =
      [.update 7 (cursorX id 110 560 ⟨335, 220⟩) (cursorY id 120 320 ⟨335, 220⟩)] :=
  single_cursor_keeps_identity id 110 120 560 320 4 5
    { cursorList := [⟨7, 1 / 2, 1 / 2, 3, .active⟩], sessionID := 8,
      currentFrameTime := 3, events := [] } ⟨7, 1 / 2, 1 / 2, 3, .active⟩
    ⟨335, 220⟩ ⟨335, 220⟩ rfl (by decide) (by decide)

/-! ## Theorems: two-phase expiry -/

theorem matchStep_keeps_untouched (fl : ℚ → ℚ) (xMin yMin xMax yMax : Int) (t : Nat)
    (tuio : TuioServer) (tp : Point2i) (c : TuioCursor) (hc : c ∈ tuio.cursorList)
    (hno : ∀ x y, TuioEvent.update c.sessionID x y ∉
      (matchStep fl xMin yMin xMax yMax t tuio tp).events) :
    c ∈ (matchStep fl xMin yMin xMax yMax t tuio tp).cursorList := by
  rcases matchStep_add_or_update fl xMin yMin xMax yMax t tuio tp with
    hstep | ⟨d, _, _, hstep⟩
  · rw [hstep]
    simp [TuioServer.addTuioCursor, hc]
  · rw [hstep] at hno ⊢
    have hid : c.sessionID ≠ d.sessionID := by
      intro h
      apply hno (cursorX fl xMin xMax tp) (cursorY fl yMin yMax tp)
      simp [TuioServer.updateTuioCursor, h]
    simp only [TuioServer.updateTuioCursor, List.mem_map]
    exact ⟨c, hc, by simp [hid]⟩

theorem matchStep_events_append (fl : ℚ → ℚ) (xMin yMin xMax yMax : Int) (t : Nat)
    (tuio : TuioServer) (tp : Point2i) :
    ∃ e, CausedBy fl xMin yMin xMax yMax tp e ∧
      (matchStep fl xMin yMin xMax yMax t tuio tp).events = tuio.events ++ [e] := by
  rcases matchStep_add_or_update fl xMin yMin xMax yMax t tuio tp with
    hstep | ⟨d, _, _, hstep⟩
  · exact ⟨_, ⟨tuio.sessionID, Or.inl rfl⟩, by rw [hstep]; rfl⟩
  · exact ⟨_, ⟨d.sessionID, Or.inr rfl⟩, by rw [hstep]; rfl⟩

theorem matchLoop_events_append (fl : ℚ → ℚ) (xMin yMin xMax yMax : Int) (t : Nat)
    (tps : List Point2i) (tuio : TuioServer) :
    ∃ es, List.Forall₂ (CausedBy fl xMin yMin xMax yMax) tps es ∧
      (matchLoop fl xMin yMin xMax yMax t tuio tps).events = tuio.events ++ es := by
  induction tps generalizing tuio with
  | nil => exact ⟨[], List.Forall₂.nil, by simp [matchLoop]⟩
  | cons tp rest ih =>
    obtain ⟨e, hce, hev⟩ := matchStep_events_append fl xMin yMin xMax yMax t tuio tp
    obtain ⟨es, hfa, hev2⟩ := ih (matchStep fl xMin yMin xMax yMax t tuio tp)
    refine ⟨e :: es, List.Forall₂.cons hce hfa, ?_⟩
    have : matchLoop fl xMin yMin xMax yMax t tuio (tp :: rest) =
        matchLoop fl xMin yMin xMax yMax t (matchStep fl xMin yMin xMax yMax t tuio tp) rest :=
      rfl
    rw [this, hev2, hev]
    simp

theorem matchLoop_keeps_untouched (fl : ℚ → ℚ) (xMin yMin xMax yMax : Int) (t : Nat)
    (tps : List Point2i) (tuio : TuioServer) (c : TuioCursor) (hc : c ∈ tuio.cursorList)
    (hno : ∀ x y, TuioEvent.update c.sessionID x y ∉
      (matchLoop fl xMin yMin xMax yMax t tuio tps).events) :
    c ∈ (matchLoop fl xMin yMin xMax yMax t tuio tps).cursorList := by
  induction tps generalizing tuio with
  | nil => simpa [matchLoop] using hc
  | cons tp rest ih =>
    have hunf : matchLoop fl xMin yMin xMax yMax t tuio (tp :: rest) =
        matchLoop fl xMin yMin xMax yMax t (matchStep fl xMin yMin xMax yMax t tuio tp) rest :=
      rfl
    rw [hunf] at hno ⊢
    obtain ⟨es, _, hev⟩ := matchLoop_events_append fl xMin yMin xMax yMax t rest
      (matchStep fl xMin yMin xMax yMax t tuio tp)
    apply ih
    · apply matchStep_keeps_untouched fl xMin yMin xMax yMax t tuio tp c hc
      intro x y hin
      apply hno x y
      rw [hev]
      exact List.mem_append_left _ hin
    · exact hno

theorem causedBy_ne_remove (fl : ℚ → ℚ) (xMin yMin xMax yMax : Int) (tps : List Point2i)
    (es : List TuioEvent) (h : List.Forall₂ (CausedBy fl xMin yMin xMax yMax) tps es)
    (k : Nat) : TuioEvent.remove k ∉ es := by
  induction h with
  | nil => simp
  | cons hce _ ih =>
    intro hin
    rcases List.mem_cons.1 hin with heq | hin
    · obtain ⟨s, hs | hs⟩ := hce
      · rw [← heq] at hs
        cases hs
      · rw [← heq] at hs
        cases hs
    · exact ih hin

theorem find_sessionID_eq_some (l : List TuioCursor)
    (hnd : (l.map TuioCursor.sessionID).Nodup) (c : TuioCursor) (hc : c ∈ l) :
    l.find? (fun d => d.sessionID = c.sessionID) = some c := by
  induction l with
  | nil => simp at hc
  | cons a as ih =>
    simp only [List.map_cons, List.nodup_cons] at hnd
    by_cases ha : a.sessionID = c.sessionID
    · have hac : a = c := by
        rcases List.mem_cons.1 hc with h | h
        · exact h.symm
        · exact absurd (ha ▸ List.mem_map_of_mem TuioCursor.sessionID h) hnd.1
      simp [List.find?, hac]
    · have hc2 : c ∈ as := by
        rcases List.mem_cons.1 hc with h | h
        · exact absurd (congrArg TuioCursor.sessionID h.symm) ha
        · exact h
      simp only [List.find?, ha, decide_False]
      exact ih hnd.2 hc2

theorem map_sessionID_stop (l : List TuioCursor) (t : Nat) :
    (l.map (fun c => if c.time ≠ t ∧ c.state = .active then
        ({ c with time := t, state := .stopped } : TuioCursor)
      else c)).map TuioCursor.sessionID = l.map TuioCursor.sessionID := by
  induction l with
  | nil => rfl
  | cons a as ih =>
    simp only [List.map_cons, ih]
    split_ifs <;> rfl

theorem wellFormed_stop (tuio : TuioServer) (h : tuio.WellFormed) :
    tuio.stopUntouchedMovingCursors.WellFormed := by
  obtain ⟨hnd, hlt⟩ := h
  refine ⟨?_, ?_⟩
  · simp only [TuioServer.stopUntouchedMovingCursors, map_sessionID_stop]
    exact hnd
  · intro c hc
    have hc2 : c.sessionID ∈ tuio.stopUntouchedMovingCursors.cursorList.map
        TuioCursor.sessionID := List.mem_map_of_mem _ hc
    simp only [TuioServer.stopUntouchedMovingCursors, map_sessionID_stop] at hc2
    obtain ⟨d, hd, hdid⟩ := List.mem_map.1 hc2
    have := hlt d hd
    simp only [TuioServer.stopUntouchedMovingCursors]
    omega

theorem wellFormed_remove (tuio : TuioServer) (h : tuio.WellFormed) :
    tuio.removeUntouchedStoppedCursors.WellFormed := by
  obtain ⟨hnd, hlt⟩ := h
  refine ⟨?_, ?_⟩
  · exact List.Nodup.sublist
      (List.Sublist.map _ (List.filter_sublist _)) hnd
  · intro c hc
    exact hlt c (List.mem_of_mem_filter hc)

theorem wellFormed_trackFrame (fl : ℚ → ℚ) (xMin yMin xMax yMax : Int) (t : Nat)
    (tuio : TuioServer) (tps : List Point2i) (h : tuio.WellFormed) :
    (trackFrame fl xMin yMin xMax yMax t tuio tps).WellFormed := by
  have h1 := (matchLoop_frameInv fl xMin yMin xMax yMax t tps _
    (frameInv_initFrame t tuio h)).1.1
  exact wellFormed_remove _ (wellFormed_stop _ h1)

theorem endOfFrame_active (tuio : TuioServer) (c : TuioCursor) (hwf : tuio.WellFormed)
    (hc : c ∈ tuio.cursorList) (hact : c.state = .active)
    (ht : c.time ≠ tuio.currentFrameTime) :
    (⟨c.sessionID, c.xpos, c.ypos, tuio.currentFrameTime, .stopped⟩ : TuioCursor) ∈
      (endOfFrame tuio).cursorList ∧
    (TuioEvent.remove c.sessionID ∈ (endOfFrame tuio).events →
      TuioEvent.remove c.sessionID ∈ tuio.events) := by
  have hstop : (⟨c.sessionID, c.xpos, c.ypos, tuio.currentFrameTime, .stopped⟩ : TuioCursor) ∈
      tuio.stopUntouchedMovingCursors.cursorList := by
    simp only [TuioServer.stopUntouchedMovingCursors, List.mem_map]
    exact ⟨c, hc, by simp [ht, hact]⟩
  have hwf2 := wellFormed_stop tuio hwf
  refine ⟨?_, ?_⟩
  · simp only [endOfFrame, TuioServer.commitFrame, TuioServer.removeUntouchedStoppedCursors,
      List.mem_filter]
    refine ⟨hstop, ?_⟩
    simp [TuioServer.untouchedStopped, TuioServer.stopUntouchedMovingCursors]
  · intro hin
    simp only [endOfFrame, TuioServer.commitFrame, TuioServer.removeUntouchedStoppedCursors,
      List.mem_append, List.mem_map, List.mem_filter] at hin
    rcases hin with hin | ⟨d, ⟨hd, hrem⟩, hid⟩
    · exact hin
    · exfalso
      have hid2 : d.sessionID = c.sessionID := by
        injection hid
      have hdeq := eq_of_sessionID_eq _ hwf2.1 d _ hd hstop hid2
      rw [hdeq] at hrem
      simp [TuioServer.untouchedStopped, TuioServer.stopUntouchedMovingCursors] at hrem

theorem endOfFrame_stopped (tuio : TuioServer) (c : TuioCursor) (hwf : tuio.WellFormed)
    (hc : c ∈ tuio.cursorList) (hst : c.state = .stopped)
    (ht : c.time ≠ tuio.currentFrameTime) :
    (∀ d ∈ (endOfFrame tuio).cursorList, d.sessionID ≠ c.sessionID) ∧
    TuioEvent.remove c.sessionID ∈ (endOfFrame tuio).events := by
  have hstop : c ∈ tuio.stopUntouchedMovingCursors.cursorList := by
    simp only [TuioServer.stopUntouchedMovingCursors, List.mem_map]
    exact ⟨c, hc, by simp [hst]⟩
  have hwf2 := wellFormed_stop tuio hwf
  have hrem : tuio.stopUntouchedMovingCursors.untouchedStopped c = true := by
    simp [TuioServer.untouchedStopped, TuioServer.stopUntouchedMovingCursors, ht, hst]
  refine ⟨?_, ?_⟩
  · intro d hd hid
    simp only [endOfFrame, TuioServer.commitFrame, TuioServer.removeUntouchedStoppedCursors,
      List.mem_filter] at hd
    have hdeq := eq_of_sessionID_eq _ hwf2.1 d c hd.1 hstop hid
    rw [hdeq, hrem] at hd
    simp at hd
  · simp only [endOfFrame, TuioServer.commitFrame, TuioServer.removeUntouchedStoppedCursors,
      List.mem_append, List.mem_map, List.mem_filter]
    exact Or.inr ⟨c, ⟨hstop, hrem⟩, rfl⟩

theorem update_mem_endOfFrame (tuio : TuioServer) (k : Nat) (x y : ℚ)
    (h : TuioEvent.update k x y ∈ tuio.events) :
    TuioEvent.update k x y ∈ (endOfFrame tuio).events := by
  simp only [endOfFrame, TuioServer.commitFrame, TuioServer.removeUntouchedStoppedCursors,
    List.mem_append]
  exact Or.inl h

/-- C5: a cursor `c` that is active and was last matched before the frame of
time `t1`, and that no touch point of the frames `t1` and `t2` updates: after
the frame `t1` the cursor is still on the server, stopped, with its identifier
and position (the queries `getTuioCursor` and `getTuioCursors` return it), and
that frame has no REMOVE event for it; after the next frame `t2` it is gone and
that frame has its REMOVE event. -/
theorem two_phase_expiry (fl : ℚ → ℚ) (xMin yMin xMax yMax : Int) (tuio : TuioServer)
    (c : TuioCursor) (t1 t2 : Nat) (tps1 tps2 : List Point2i)
    (hwf : tuio.WellFormed) (hc : c ∈ tuio.cursorList) (hact : c.state = .active)
    (ht1 : c.time ≠ t1) (ht2 : t1 ≠ t2)
    (hno1 : ∀ x y, TuioEvent.update c.sessionID x y ∉
      (trackFrame fl xMin yMin xMax yMax t1 tuio tps1).events)
    (hno2 : ∀ x y, TuioEvent.update c.sessionID x y ∉
      (trackFrame fl xMin yMin xMax yMax t2
        (trackFrame fl xMin yMin xMax yMax t1 tuio tps1) tps2).events) :
    (trackFrame fl xMin yMin xMax yMax t1 tuio tps1).getTuioCursor c.sessionID =
      some ⟨c.sessionID, c.xpos, c.ypos, t1, .stopped⟩ ∧
    (⟨c.sessionID, c.xpos, c.ypos, t1, .stopped⟩ : TuioCursor) ∈
      (trackFrame fl xMin yMin xMax yMax t1 tuio tps1).getTuioCursors ∧
    TuioEvent.remove c.sessionID ∉ (trackFrame fl xMin yMin xMax yMax t1 tuio tps1).events ∧
    (trackFrame fl xMin yMin xMax yMax t2
      (trackFrame fl xMin yMin xMax yMax t1 tuio tps1) tps2).getTuioCursor c.sessionID = none ∧
    (∀ d ∈ (trackFrame fl xMin yMin xMax yMax t2
      (trackFrame fl xMin yMin xMax yMax t1 tuio tps1) tps2).getTuioCursors,
        d.sessionID ≠ c.sessionID) ∧
    TuioEvent.remove c.sessionID ∈ (trackFrame fl xMin yMin xMax yMax t2
      (trackFrame fl xMin yMin xMax yMax t1 tuio tps1) tps2).events := by
  -- frame t1
  have hinv1 := (matchLoop_frameInv fl xMin yMin xMax yMax t1 tps1 _
    (frameInv_initFrame t1 tuio hwf)).1
  have hcft1 : (matchLoop fl xMin yMin xMax yMax t1 (tuio.initFrame t1) tps1).currentFrameTime
      = t1 := hinv1.2.1
  have hkeep1 : c ∈ (matchLoop fl xMin yMin xMax yMax t1 (tuio.initFrame t1) tps1).cursorList :=
    matchLoop_keeps_untouched fl xMin yMin xMax yMax t1 tps1 _ c hc
      (fun x y hin => hno1 x y (update_mem_endOfFrame _ _ x y hin))
  obtain ⟨hin1, hrm1⟩ := endOfFrame_active _ c hinv1.1 hkeep1 hact (by rw [hcft1]; exact ht1)
  rw [hcft1] at hin1
  have hwf1 := wellFormed_trackFrame fl xMin yMin xMax yMax t1 tuio tps1 hwf
  have hnorm1 : TuioEvent.remove c.sessionID ∉
      (trackFrame fl xMin yMin xMax yMax t1 tuio tps1).events := by
    intro hin
    obtain ⟨es, hfa, hev⟩ := matchLoop_events_append fl xMin yMin xMax yMax t1 tps1
      (tuio.initFrame t1)
    have := hrm1 hin
    rw [hev] at this
    simp only [TuioServer.initFrame, List.nil_append] at this
    exact causedBy_ne_remove fl xMin yMin xMax yMax tps1 es hfa _ this
  -- frame t2
  have hinv2 := (matchLoop_frameInv fl xMin yMin xMax yMax t2 tps2 _
    (frameInv_initFrame t2 _ hwf1)).1
  have hcft2 : (matchLoop fl xMin yMin xMax yMax t2
      ((trackFrame fl xMin yMin xMax yMax t1 tuio tps1).initFrame t2) tps2).currentFrameTime
      = t2 := hinv2.2.1
  have hkeep2 := matchLoop_keeps_untouched fl xMin yMin xMax yMax t2 tps2
    ((trackFrame fl xMin yMin xMax yMax t1 tuio tps1).initFrame t2)
    ⟨c.sessionID, c.xpos, c.ypos, t1, .stopped⟩ hin1
    (fun x y hin => hno2 x y (update_mem_endOfFrame _ _ x y hin))
  obtain ⟨hgone, hrm2⟩ := endOfFrame_stopped _ _ hinv2.1 hkeep2 rfl
    (by rw [hcft2]; exact ht2)
  refine ⟨?_, hin1, hnorm1, ?_, hgone, hrm2⟩
  · exact find_sessionID_eq_some _ hwf1.1 ⟨c.sessionID, c.xpos, c.ypos, t1, .stopped⟩ hin1
  · simp only [TuioServer.getTuioCursor, List.find?_eq_none, decide_eq_true_eq]
    exact hgone

theorem trackFrame_twoCursors_first :
    trackFrame id 110 120 560 320 1 twoCursors [⟨200, 220⟩] =
      { cursorList := [⟨0, 1 / 5, 1 / 2, 1, .active⟩, ⟨1, 9 / 10, 1 / 2, 1, .stopped⟩],
        sessionID := 2, currentFrameTime := 1,
        events := [.update 0 (1 / 5) (1 / 2)] } := by
  norm_num [trackFrame, endOfFrame, matchLoop, matchStep, twoCursors, TuioServer.initFrame,
    TuioServer.getClosestTuioCursor, closestCursor, TuioCursor.distSq, cursorX, cursorY,
    TuioServer.addTuioCursor, TuioServer.updateTuioCursor,
    TuioServer.stopUntouchedMovingCursors, TuioServer.removeUntouchedStoppedCursors,
    TuioServer.commitFrame, TuioServer.untouchedStopped]

theorem trackFrame_twoCursors_second :
    trackFrame id 110 120 560 320 2
        (trackFrame id 110 120 560 320 1 twoCursors [⟨200, 220⟩]) [⟨200, 220⟩] =
      { cursorList := [⟨0, 1 / 5, 1 / 2, 2, .active⟩],
        sessionID := 2, currentFrameTime := 2,
        events := [.update 0 (1 / 5) (1 / 2), .remove 1] } := by
  rw [trackFrame_twoCursors_first]
  have hne : CursorState.stopped ≠ CursorState.active := by decide
  norm_num [hne, trackFrame, endOfFrame, matchLoop, matchStep, TuioServer.initFrame,
    TuioServer.getClosestTuioCursor, closestCursor, TuioCursor.distSq, cursorX, cursorY,
    TuioServer.addTuioCursor, TuioServer.updateTuioCursor,
    TuioServer.stopUntouchedMovingCursors, TuioServer.removeUntouchedStoppedCursors,
    TuioServer.commitFrame, TuioServer.untouchedStopped]

/-- C5 (witness): of the two cursors of `twoCursors`, cursor 0 is updated by the
touch point (200, 220) in the frames 1 and 2, cursor 1 gets no touch point: it
is stopped after frame 1 and removed in frame 2. -/
theorem two_phase_expiry_witness :
    (trackFrame id 110 120 560 320 1 twoCursors [⟨200, 220⟩]).getTuioCursor 1 =
      some ⟨1, 9 / 10, 1 / 2, 1, .stopped⟩ ∧
    (⟨1, 9 / 10, 1 / 2, 1, .stopped⟩ : TuioCursor) ∈
      (trackFrame id 110 120 560 320 1 twoCursors [⟨200, 220⟩]).getTuioCursors ∧
    TuioEvent.remove 1 ∉ (trackFrame id 110 120 560 320 1 twoCursors [⟨200, 220⟩]).events ∧
    (trackFrame id 110 120 560 320 2
      (trackFrame id 110 120 560 320 1 twoCursors [⟨200, 220⟩])
        [⟨200, 220⟩]).getTuioCursor 1 = none ∧
    (∀ d ∈ (trackFrame id 110 120 560 320 2
      (trackFrame id 110 120 560 320 1 twoCursors [⟨200, 220⟩])
        [⟨200, 220⟩]).getTuioCursors, d.sessionID ≠ 1) ∧
    TuioEvent.remove 1 ∈ (trackFrame id 110 120 560 320 2
      (trackFrame id 110 120 560 320 1 twoCursors [⟨200, 220⟩]) [⟨200, 220⟩]).events :=
  two_phase_expiry id 110 120 560 320 twoCursors ⟨1, 9 / 10, 1 / 2, 0, .active⟩ 1 2
    [⟨200, 220⟩] [⟨200, 220⟩]
    (by unfold twoCursors; exact ⟨by decide, by decide⟩)
    (by simp [twoCursors]) rfl (by decide) (by decide)
    (by
      intro x y
      rw [trackFrame_twoCursors_first]
      simp)
    (by
      intro x y
      rw [trackFrame_twoCursors_second]
      simp)

/-! ## Theorems: normalized positions -/

theorem sum_map_ge (f : Point2i → Int) (a : Int) (l : List Point2i)
    (h : ∀ p ∈ l, a ≤ f p) : a * (l.length : Int) ≤ (l.map f).sum := by
  induction l with
  | nil => simp
  | cons p ps ih =>
    have h1 := h p (List.mem_cons_self _ _)
    have h2 := ih (fun q hq => h q (List.mem_cons_of_mem _ hq))
    simp only [List.map_cons, List.sum_cons, List.length_cons, Nat.cast_add, Nat.cast_one]
    nlinarith

theorem sum_map_le (f : Point2i → Int) (b : Int) (l : List Point2i)
    (h : ∀ p ∈ l, f p ≤ b) : (l.map f).sum ≤ b * (l.length : Int) := by
  induction l with
  | nil => simp
  | cons p ps ih =>
    have h1 := h p (List.mem_cons_self _ _)
    have h2 := ih (fun q hq => h q (List.mem_cons_of_mem _ hq))
    simp only [List.map_cons, List.sum_cons, List.length_cons, Nat.cast_add, Nat.cast_one]
    nlinarith

theorem truncToInt_mem (v : ℚ) (a b : Int) (ha : (a : ℚ) ≤ v) (hb : v ≤ (b : ℚ)) :
    a ≤ truncToInt v ∧ truncToInt v ≤ b := by
  unfold truncToInt
  split_ifs with h
  · refine ⟨Int.le_floor.2 ha, ?_⟩
    have : ((⌊v⌋ : Int) : ℚ) ≤ (b : ℚ) := le_trans (Int.floor_le v) hb
    exact_mod_cast this
  · refine ⟨?_, Int.ceil_le.2 hb⟩
    have : (a : ℚ) ≤ ((⌈v⌉ : Int) : ℚ) := le_trans ha (Int.le_ceil v)
    exact_mod_cast this

theorem mean_coord_mem (f : Point2i → Int) (a b : Int) (l : List Point2i) (hne : l ≠ [])
    (h : ∀ p ∈ l, a ≤ f p ∧ f p < b) :
    (a : ℚ) ≤ (((l.map f).sum : Int) : ℚ) / (l.length : ℚ) ∧
      (((l.map f).sum : Int) : ℚ) / (l.length : ℚ) ≤ ((b - 1 : Int) : ℚ) := by
  have hlen : (0 : ℚ) < (l.length : ℚ) := by
    have : 0 < l.length := List.length_pos.2 hne
    exact_mod_cast this
  have h1 : ((a * (l.length : Int) : Int) : ℚ) ≤ (((l.map f).sum : Int) : ℚ) := by
    exact_mod_cast sum_map_ge f a l (fun p hp => (h p hp).1)
  have h2 : (((l.map f).sum : Int) : ℚ) ≤ (((b - 1) * (l.length : Int) : Int) : ℚ) := by
    exact_mod_cast sum_map_le f (b - 1) l (fun p hp => by have := (h p hp).2; omega)
  rw [Int.cast_mul, Int.cast_natCast] at h1 h2
  refine ⟨?_, ?_⟩
  · rw [le_div_iff₀ hlen]
    exact h1
  · rw [div_le_iff₀ hlen]
    exact h2

theorem touchPointOf_mem_roi (xMin yMin xMax yMax : Int) (contour : List Point2i)
    (hne : contour ≠ [])
    (hin : ∀ p ∈ contour, xMin ≤ p.x ∧ p.x < xMax ∧ yMin ≤ p.y ∧ p.y < yMax) :
    xMin ≤ (touchPointOf contour).x ∧ (touchPointOf contour).x ≤ xMax - 1 ∧
    yMin ≤ (touchPointOf contour).y ∧ (touchPointOf contour).y ≤ yMax - 1 := by
  obtain ⟨hx1, hx2⟩ := mean_coord_mem Point2i.x xMin xMax contour hne
    (fun p hp => ⟨(hin p hp).1, (hin p hp).2.1⟩)
  obtain ⟨hy1, hy2⟩ := mean_coord_mem Point2i.y yMin yMax contour hne
    (fun p hp => ⟨(hin p hp).2.2.1, (hin p hp).2.2.2⟩)
  obtain ⟨a1, a2⟩ := truncToInt_mem _ _ _ hx1 hx2
  obtain ⟨b1, b2⟩ := truncToInt_mem _ _ _ hy1 hy2
  exact ⟨a1, a2, b1, b2⟩

theorem ratio_mem_unit (p lo hi : Int) (h1 : lo ≤ p) (h2 : p ≤ hi - 1) :
    (0 : ℚ) ≤ ((p : ℚ) - (lo : ℚ)) / ((hi - lo : Int) : ℚ) ∧
      ((p : ℚ) - (lo : ℚ)) / ((hi - lo : Int) : ℚ) ≤ 1 := by
  have hw : (0 : ℚ) < ((hi - lo : Int) : ℚ) := by
    have : (0 : Int) < hi - lo := by omega
    exact_mod_cast this
  have hn : (0 : ℚ) ≤ (p : ℚ) - (lo : ℚ) := by
    have : (lo : ℚ) ≤ (p : ℚ) := by exact_mod_cast h1
    linarith
  have hle : (p : ℚ) - (lo : ℚ) ≤ ((hi - lo : Int) : ℚ) := by
    have : (p : ℚ) ≤ ((hi - 1 : Int) : ℚ) := by exact_mod_cast h2
    push_cast at this ⊢
    linarith
  exact ⟨div_nonneg hn (le_of_lt hw), (div_le_one hw).2 hle⟩

/-- C6: for a ROI and a contour (not empty) whose points all lie in the ROI,
`xMin <= x < xMax` and `yMin <= y < yMax` (which makes `xMin < xMax` and
`yMin < yMax`), the position computed for its touch point, the integer-truncated
mean of the contour points, satisfies `0 <= cursorX <= 1` and
`0 <= cursorY <= 1`. The `float` operations round by any `fl` that is monotone
and leaves 0 and 1 unchanged, as rounding to nearest does. -/
theorem cursor_position_in_unit_square (fl : ℚ → ℚ) (xMin yMin xMax yMax : Int)
    (contour : List Point2i)
    (hmono : Monotone fl) (hfl0 : fl 0 = 0) (hfl1 : fl 1 = 1) (hne : contour ≠ [])
    (hin : ∀ p ∈ contour, xMin ≤ p.x ∧ p.x < xMax ∧ yMin ≤ p.y ∧ p.y < yMax) :
    0 ≤ cursorX fl xMin xMax (touchPointOf contour) ∧
    cursorX fl xMin xMax (touchPointOf contour) ≤ 1 ∧
    0 ≤ cursorY fl yMin yMax (touchPointOf contour) ∧
    cursorY fl yMin yMax (touchPointOf contour) ≤ 1 := by
  obtain ⟨a1, a2, b1, b2⟩ := touchPointOf_mem_roi xMin yMin xMax yMax contour hne hin
  obtain ⟨qx0, qx1⟩ := ratio_mem_unit _ xMin xMax a1 a2
  obtain ⟨qy0, qy1⟩ := ratio_mem_unit _ yMin yMax b1 b2
  have fy0 : 0 ≤ fl ((((touchPointOf contour).y : ℚ) - (yMin : ℚ)) /
      ((yMax - yMin : Int) : ℚ)) := hfl0 ▸ hmono qy0
  have fy1 : fl ((((touchPointOf contour).y : ℚ) - (yMin : ℚ)) /
      ((yMax - yMin : Int) : ℚ)) ≤ 1 := hfl1 ▸ hmono qy1
  refine ⟨?_, ?_, ?_, ?_⟩
  · exact hfl0 ▸ hmono qx0
  · exact hfl1 ▸ hmono qx1
  · have : (0 : ℚ) ≤ 1 - fl ((((touchPointOf contour).y : ℚ) - (yMin : ℚ)) /
        ((yMax - yMin : Int) : ℚ)) := by linarith
    exact hfl0 ▸ hmono this
  · have : 1 - fl ((((touchPointOf contour).y : ℚ) - (yMin : ℚ)) /
        ((yMax - yMin : Int) : ℚ)) ≤ (1 : ℚ) := by linarith
    exact hfl1 ▸ hmono this

/-- C6 (witness): the default ROI (110,120)-(560,320), exact arithmetic, and a
contour through (110,120), (559,120), (559,319), (110,319). -/
theorem cursor_position_in_unit_square_witness :
    0 ≤ cursorX id 110 560 (touchPointOf [⟨110, 120⟩, ⟨559, 120⟩, ⟨559, 319⟩, ⟨110, 319⟩]) ∧
    cursorX id 110 560 (touchPointOf [⟨110, 120⟩, ⟨559, 120⟩, ⟨559, 319⟩, ⟨110, 319⟩]) ≤ 1 ∧
    0 ≤ cursorY id 120 320 (touchPointOf [⟨110, 120⟩, ⟨559, 120⟩, ⟨559, 319⟩, ⟨110, 319⟩]) ∧
    cursorY id 120 320 (touchPointOf [⟨110, 120⟩, ⟨559, 120⟩, ⟨559, 319⟩, ⟨110, 319⟩]) ≤ 1 :=
  cursor_position_in_unit_square id 110 120 560 320
    [⟨110, 120⟩, ⟨559, 120⟩, ⟨559, 319⟩, ⟨110, 319⟩]
    monotone_id rfl rfl (by simp) (by decide)

/-! ## Theorems: `boxContours` meets the contracts -/

theorem firstIdx_eq_none (p : Int → Bool) (n : Nat) (i : Int)
    (h : ∀ j, i ≤ j → j < i + n → p j = false) : firstIdx p n i = none := by
  induction n generalizing i with
  | zero => rfl
  | succ n ih =>
    have hi : p i = false := h i (le_refl _) (by push_cast; omega)
    simp only [firstIdx, hi, Bool.false_eq_true, if_false]
    exact ih (i + 1) (fun j h1 h2 => h j (by omega) (by push_cast; omega))

theorem firstIdx_eq_some (p : Int → Bool) (n : Nat) (i a : Int)
    (hlo : i ≤ a) (hhi : a < i + n) (hpa : p a = true)
    (h : ∀ j, i ≤ j → j < a → p j = false) : firstIdx p n i = some a := by
  induction n generalizing i with
  | zero => exact absurd hhi (by simp; omega)
  | succ n ih =>
    by_cases hia : i = a
    · subst hia
      simp [firstIdx, hpa]
    · have hi : p i = false := h i (le_refl _) (by omega)
      simp only [firstIdx, hi, Bool.false_eq_true, if_false]
      exact ih (i + 1) (by omega) (by push_cast at hhi; omega)
        (fun j h1 h2 => h j (by omega) h2)

theorem firstIdx_some_bounds (p : Int → Bool) (n : Nat) (i a : Int)
    (h : firstIdx p n i = some a) : i ≤ a ∧ a < i + n := by
  induction n generalizing i with
  | zero => simp [firstIdx] at h
  | succ n ih =>
    simp only [firstIdx] at h
    split_ifs at h with hp
    · simp only [Option.some.injEq] at h
      subst h
      push_cast
      omega
    · have := ih (i + 1) h
      push_cast
      omega

theorem lastIdx_eq_some (p : Int → Bool) (n : Nat) (i a : Int)
    (hhi : a ≤ i) (hlo : i - n < a) (hpa : p a = true)
    (h : ∀ j, a < j → j ≤ i → p j = false) : lastIdx p n i = some a := by
  induction n generalizing i with
  | zero => exact absurd hlo (by simp; omega)
  | succ n ih =>
    by_cases hia : i = a
    · subst hia
      simp [lastIdx, hpa]
    · have hi : p i = false := h i (by omega) (le_refl _)
      simp only [lastIdx, hi, Bool.false_eq_true, if_false]
      exact ih (i - 1) (by omega) (by push_cast at hlo; omega)
        (fun j h1 h2 => h j h1 (by omega))

theorem lastIdx_some_bounds (p : Int → Bool) (n : Nat) (i a : Int)
    (h : lastIdx p n i = some a) : i - n < a ∧ a ≤ i := by
  induction n generalizing i with
  | zero => simp [lastIdx] at h
  | succ n ih =>
    simp only [lastIdx] at h
    split_ifs at h with hp
    · simp only [Option.some.injEq] at h
      subst h
      push_cast
      omega
    · have := ih (i - 1) h
      push_cast
      omega

theorem boxContours_findsFilledRect : FindsFilledRect boxContours := by
  intro m offset c0 r0 c1 r1 hc0 hc01 hc1 hr0 hr01 hr1 hrect
  have hcols : ((m.cols.toNat : Nat) : Int) = m.cols := Int.toNat_of_nonneg (by omega)
  have hrows : ((m.rows.toNat : Nat) : Int) = m.rows := Int.toNat_of_nonneg (by omega)
  have hpx : ∀ r c, 0 ≤ r → r < m.rows → 0 ≤ c → c < m.cols →
      (decide (m.px r c ≠ 0) = true ↔ (r0 ≤ r ∧ r ≤ r1 ∧ c0 ≤ c ∧ c ≤ c1)) := by
    intro r c h1 h2 h3 h4
    rw [decide_eq_true_iff]
    exact hrect r c h1 h2 h3 h4
  have hpxf : ∀ r c, 0 ≤ r → r < m.rows → 0 ≤ c → c < m.cols →
      ¬ (r0 ≤ r ∧ r ≤ r1 ∧ c0 ≤ c ∧ c ≤ c1) → decide (m.px r c ≠ 0) = false := by
    intro r c h1 h2 h3 h4 hn
    rw [decide_eq_false_iff_not]
    exact fun h => hn ((hrect r c h1 h2 h3 h4).1 h)
  have hfirstc : ∀ r, r0 ≤ r → r ≤ r1 →
      firstIdx (fun c => decide (m.px r c ≠ 0)) m.cols.toNat 0 = some c0 := by
    intro r h1 h2
    apply firstIdx_eq_some _ _ 0 c0 (by omega) (by omega)
    · exact (hpx r c0 (by omega) (by omega) (by omega) (by omega)).2 ⟨h1, h2, le_refl _, by omega⟩
    · intro j hj1 hj2
      exact hpxf r j (by omega) (by omega) hj1 (by omega) (fun h => by omega)
  have hrowT : ∀ r, r0 ≤ r → r ≤ r1 → rowHasPixel m r = true := by
    intro r h1 h2
    unfold rowHasPixel
    rw [hfirstc r h1 h2]
    rfl
  have hrowF : ∀ r, 0 ≤ r → r < m.rows → ¬ (r0 ≤ r ∧ r ≤ r1) → rowHasPixel m r = false := by
    intro r h1 h2 hn
    have : firstIdx (fun c => decide (m.px r c ≠ 0)) m.cols.toNat 0 = none := by
      apply firstIdx_eq_none
      intro j hj1 hj2
      exact hpxf r j h1 h2 hj1 (by omega) (fun h => hn ⟨h.1, h.2.1⟩)
    unfold rowHasPixel
    rw [this]
    rfl
  have hR0 : firstIdx (rowHasPixel m) m.rows.toNat 0 = some r0 := by
    apply firstIdx_eq_some _ _ 0 r0 (by omega) (by omega) (hrowT r0 (le_refl _) (by omega))
    intro j hj1 hj2
    exact hrowF j hj1 (by omega) (fun h => by omega)
  have hR1 : lastIdx (rowHasPixel m) m.rows.toNat (m.rows - 1) = some r1 := by
    apply lastIdx_eq_some _ _ (m.rows - 1) r1 (by omega) (by omega) (hrowT r1 (by omega) (le_refl _))
    intro j hj1 hj2
    exact hrowF j (by omega) (by omega) (fun h => by omega)
  have hC1 : lastIdx (fun c => decide (m.px r0 c ≠ 0)) m.cols.toNat (m.cols - 1) = some c1 := by
    apply lastIdx_eq_some _ _ (m.cols - 1) c1 (by omega) (by omega)
    · exact (hpx r0 c1 (by omega) (by omega) (by omega) (by omega)).2
        ⟨le_refl _, by omega, by omega, le_refl _⟩
    · intro j hj1 hj2
      exact hpxf r0 j (by omega) (by omega) (by omega) (by omega) (fun h => by omega)
  have hne : ¬ (m.rows ≤ 0 ∨ m.cols ≤ 0) := by omega
  simp only [boxContours, if_neg hne, hR0, hR1, hfirstc r0 (le_refl _) (by omega), hC1]

theorem boxContours_inImage : ContoursInImage boxContours := by
  intro m offset contours hfc contour hcon p hp
  simp only [boxContours] at hfc
  split_ifs at hfc with hempty
  cases hR0 : firstIdx (rowHasPixel m) m.rows.toNat 0 with
  | none =>
    rw [hR0] at hfc
    simp only [Except.ok.injEq] at hfc
    subst hfc
    simp at hcon
  | some r0 =>
    rw [hR0] at hfc
    simp only at hfc
    cases hR1 : lastIdx (rowHasPixel m) m.rows.toNat (m.rows - 1) with
    | none =>
      rw [hR1] at hfc
      simp only [Except.ok.injEq] at hfc
      subst hfc
      simp at hcon
    | some r1 =>
      cases hC0 : firstIdx (fun c => decide (m.px r0 c ≠ 0)) m.cols.toNat 0 with
      | none =>
        rw [hR1, hC0] at hfc
        simp only [Except.ok.injEq] at hfc
        subst hfc
        simp at hcon
      | some c0 =>
        cases hC1 : lastIdx (fun c => decide (m.px r0 c ≠ 0)) m.cols.toNat (m.cols - 1) with
        | none =>
          rw [hR1, hC0, hC1] at hfc
          simp only [Except.ok.injEq] at hfc
          subst hfc
          simp at hcon
        | some c1 =>
          rw [hR1, hC0, hC1] at hfc
          simp only [Except.ok.injEq] at hfc
          subst hfc
          have b1 := firstIdx_some_bounds _ _ _ _ hR0
          have b2 := lastIdx_some_bounds _ _ _ _ hR1
          have b3 := firstIdx_some_bounds _ _ _ _ hC0
          have b4 := lastIdx_some_bounds _ _ _ _ hC1
          have hrows : ((m.rows.toNat : Nat) : Int) = m.rows :=
            Int.toNat_of_nonneg (by omega)
          have hcols : ((m.cols.toNat : Nat) : Int) = m.cols :=
            Int.toNat_of_nonneg (by omega)
          simp only [List.mem_singleton] at hcon
          subst hcon
          simp only [List.mem_cons, List.mem_singleton, List.not_mem_nil, or_false] at hp
          rcases hp with rfl | rfl | rfl | rfl <;> simp only <;> omega

/-! ## Theorems: detection of a square block -/

theorem contourArea_rect (a b c d : Int) (h1 : a ≤ c) (h2 : b ≤ d) :
    contourArea [⟨a, b⟩, ⟨a, d⟩, ⟨c, d⟩, ⟨c, b⟩] = (((c - a) * (d - b) : Int) : ℚ) := by
  have h : (0 : ℚ) ≤ (((c - a) * (d - b) : Int) : ℚ) := by
    have : (0 : Int) ≤ (c - a) * (d - b) := mul_nonneg (by omega) (by omega)
    exact_mod_cast this
  have hval : ((contourCross ⟨c, b⟩ [⟨a, b⟩, ⟨a, d⟩, ⟨c, d⟩, ⟨c, b⟩] : Int) : ℚ) * (1 / 2) =
      -(((c - a) * (d - b) : Int) : ℚ) := by
    simp only [contourCross]
    push_cast
    ring
  simp only [contourArea, List.getLast?, List.getLast]
  rw [hval, abs_neg, abs_of_nonneg h]

theorem touchPointOf_rect (a b c d : Int) (hx : 0 ≤ a + c) (hy : 0 ≤ b + d) :
    touchPointOf [⟨a, b⟩, ⟨a, d⟩, ⟨c, d⟩, ⟨c, b⟩] = ⟨(a + c) / 2, (b + d) / 2⟩ := by
  have key : ∀ u v : Int, 0 ≤ u + v →
      truncToInt (((u + (u + (v + (v + 0))) : Int) : ℚ) / ((4 : Nat) : ℚ)) = (u + v) / 2 := by
    intro u v huv
    have e : (((u + (u + (v + (v + 0))) : Int) : ℚ) / ((4 : Nat) : ℚ)) =
        (((u + v : Int) : ℚ) / ((2 : Nat) : ℚ)) := by
      push_cast
      ring
    have hnn : (0 : ℚ) ≤ ((u + v : Int) : ℚ) / ((2 : Nat) : ℚ) := by
      have : (0 : ℚ) ≤ ((u + v : Int) : ℚ) := by exact_mod_cast huv
      positivity
    rw [e, truncToInt, if_pos hnn, Rat.floor_intCast_div_natCast]
    rfl
  have kx := key a c hx
  have ky := key b d (by omega)
  have ey : (b + (d + (d + (b + 0))) : Int) = b + (b + (d + (d + 0))) := by ring
  simp only [touchPointOf, mean, List.map_cons, List.map_nil, List.sum_cons, List.sum_nil,
    List.length_cons, List.length_nil]
  rw [ey]
  exact congrArg₂ Point2i.mk kx ky

theorem detect_block (findContours : FindContours) (rows cols D k x0 y0 s : Int)
    (xMin yMin xMax yMax : Int) (hfc : FindsFilledRect findContours)
    (hk1 : touchDepthMin < k) (hk2 : k < touchDepthMax)
    (hx0 : 0 ≤ xMin) (hx1 : xMax ≤ cols) (hy0 : 0 ≤ yMin) (hy1 : yMax ≤ rows)
    (hbx0 : xMin < x0) (hbx1 : x0 + s < xMax) (hby0 : yMin < y0) (hby1 : y0 + s < yMax)
    (hs : 2 ≤ s) :
    detect findContours (uniformMat rows cols D) (blockMat rows cols D k x0 y0 s)
        xMin yMin xMax yMax =
      .ok (collectTouchPoints
        [[⟨x0, y0⟩, ⟨x0, y0 + s - 1⟩, ⟨x0 + s - 1, y0 + s - 1⟩, ⟨x0 + s - 1, y0⟩]]) := by
  have hroi : Mat.roi (touchMask (uniformMat rows cols D) (blockMat rows cols D k x0 y0 s))
      { x := xMin, y := yMin, width := xMax - xMin, height := yMax - yMin } =
      .ok { rows := yMax - yMin, cols := xMax - xMin,
            px := fun r c => (touchMask (uniformMat rows cols D)
              (blockMat rows cols D k x0 y0 s)).px (r + yMin) (c + xMin) } := by
    have hc : 0 ≤ xMin ∧ 0 ≤ xMax - xMin ∧ xMin + (xMax - xMin) ≤ cols ∧
        0 ≤ yMin ∧ 0 ≤ yMax - yMin ∧ yMin + (yMax - yMin) ≤ rows := by
      refine ⟨hx0, ?_, ?_, hy0, ?_, ?_⟩ <;> omega
    simp only [Mat.roi, touchMask, Mat1b.and, Mat1s.gt, Mat1s.sub, uniformMat]
    rw [if_pos hc]
  have hrect : IsFilledRect
      { rows := yMax - yMin, cols := xMax - xMin,
        px := fun r c => (touchMask (uniformMat rows cols D)
          (blockMat rows cols D k x0 y0 s)).px (r + yMin) (c + xMin) }
      (x0 - xMin) (y0 - yMin) (x0 + s - 1 - xMin) (y0 + s - 1 - yMin) := by
    intro r c _ _ _ _
    rw [touchMask_px_ne_zero_iff]
    simp only [uniformMat, blockMat]
    unfold touchDepthMin touchDepthMax at *
    split_ifs with hb
    · constructor
      · intro _
        omega
      · intro _
        omega
    · constructor
      · intro h
        omega
      · intro h
        exact absurd (by omega) hb
  have hcont := hfc _ { x := xMin, y := yMin } (x0 - xMin) (y0 - yMin) (x0 + s - 1 - xMin)
    (y0 + s - 1 - yMin) (by omega) (by omega) (by simp only; omega) (by omega) (by omega)
    (by simp only; omega) hrect
  have e1 : x0 - xMin + xMin = x0 := by omega
  have e2 : y0 - yMin + yMin = y0 := by omega
  have e3 : x0 + s - 1 - xMin + xMin = x0 + s - 1 := by omega
  have e4 : y0 + s - 1 - yMin + yMin = y0 + s - 1 := by omega
  simp only [e1, e2, e3, e4] at hcont
  simp only [detect, hroi, hcont, bind, Except.bind, pure, Except.pure]

/-- C7 (amended): with a `findContours` that returns the four corner pixels of a
filled rectangle, a uniform background of depth `D`, `touchDepthMin < k <
touchDepthMax`, and a frame equal to `D` except on a square block of side `s`
and depth `D - k` that lies inside the ROI without touching its outermost rows
and columns: when `(s - 1) * (s - 1) > touchMinArea` (the area of the contour
polygon, which is what `contourArea` measures), the detection step produces
exactly one touch point, the centre of the block with coordinates truncated to
integers, `(x0 + (s - 1) / 2, y0 + (s - 1) / 2)`. -/
theorem detect_block_one_touch_point (findContours : FindContours)
    (rows cols D k x0 y0 s : Int) (xMin yMin xMax yMax : Int)
    (hfc : FindsFilledRect findContours)
    (hk1 : touchDepthMin < k) (hk2 : k < touchDepthMax)
    (hx0 : 0 ≤ xMin) (hx1 : xMax ≤ cols) (hy0 : 0 ≤ yMin) (hy1 : yMax ≤ rows)
    (hbx0 : xMin < x0) (hbx1 : x0 + s < xMax) (hby0 : yMin < y0) (hby1 : y0 + s < yMax)
    (hs : 0 < s) (harea : (touchMinArea : Int) < (s - 1) * (s - 1)) :
    detect findContours (uniformMat rows cols D) (blockMat rows cols D k x0 y0 s)
        xMin yMin xMax yMax =
      .ok [⟨x0 + (s - 1) / 2, y0 + (s - 1) / 2⟩] := by
  have hs2 : 2 ≤ s := by
    unfold touchMinArea at harea
    by_contra hlt
    have : s = 1 := by omega
    subst this
    simp at harea
  rw [detect_block findContours rows cols D k x0 y0 s xMin yMin xMax yMax hfc hk1 hk2
    hx0 hx1 hy0 hy1 hbx0 hbx1 hby0 hby1 hs2]
  have ha : contourArea [⟨x0, y0⟩, ⟨x0, y0 + s - 1⟩, ⟨x0 + s - 1, y0 + s - 1⟩,
      ⟨x0 + s - 1, y0⟩] > (touchMinArea : ℚ) := by
    rw [contourArea_rect x0 y0 (x0 + s - 1) (y0 + s - 1) (by omega) (by omega)]
    have : (touchMinArea : Int) < (x0 + s - 1 - x0) * (y0 + s - 1 - y0) := by
      have e1 : x0 + s - 1 - x0 = s - 1 := by omega
      have e2 : y0 + s - 1 - y0 = s - 1 := by omega
      rw [e1, e2]
      exact harea
    exact_mod_cast this
  have htp : touchPointOf [⟨x0, y0⟩, ⟨x0, y0 + s - 1⟩, ⟨x0 + s - 1, y0 + s - 1⟩,
      ⟨x0 + s - 1, y0⟩] = ⟨x0 + (s - 1) / 2, y0 + (s - 1) / 2⟩ := by
    rw [touchPointOf_rect x0 y0 (x0 + s - 1) (y0 + s - 1) (by omega) (by omega)]
    have e1 : (x0 + (x0 + s - 1)) / 2 = x0 + (s - 1) / 2 := by omega
    have e2 : (y0 + (y0 + s - 1)) / 2 = y0 + (s - 1) / 2 := by omega
    rw [e1, e2]
  simp only [collectTouchPoints, if_pos ha, htp]

/-- C7 (witness): a 10 x 10 block at (300, 200) in the default ROI of a 480 x 640
frame gives the touch point (304, 204). -/
theorem detect_block_one_touch_point_witness :
    detect boxContours (uniformMat 480 640 2000) (blockMat 480 640 2000 15 300 200 10)
        110 120 560 320 =
      .ok [⟨300 + (10 - 1) / 2, 200 + (10 - 1) / 2⟩] :=
  detect_block_one_touch_point boxContours 480 640 2000 15 300 200 10 110 120 560 320
    boxContours_findsFilledRect (by decide) (by decide) (by decide) (by decide) (by decide)
    (by decide) (by decide) (by decide) (by decide) (by decide) (by decide) (by decide)

/-- C7 (counterexample): an 8 x 8 block (pixel area 64, not below `touchMinArea`)
of depth `D - 15` at (300, 200) in the default ROI: its contour polygon has area
7 * 7 = 49, which is not above `touchMinArea`, and no touch point is produced. -/
theorem detect_block_8x8_no_touch_point :
    (touchMinArea : Int) ≤ 8 * 8 ∧
    contourArea [⟨300, 200⟩, ⟨300, 200 + 8 - 1⟩, ⟨300 + 8 - 1, 200 + 8 - 1⟩,
      ⟨300 + 8 - 1, 200⟩] = 49 ∧
    detect boxContours (uniformMat 480 640 2000) (blockMat 480 640 2000 15 300 200 8)
        110 120 560 320 = .ok [] := by
  have ha : contourArea [⟨300, 200⟩, ⟨300, 200 + 8 - 1⟩, ⟨300 + 8 - 1, 200 + 8 - 1⟩,
      ⟨300 + 8 - 1, 200⟩] = 49 := by
    rw [contourArea_rect 300 200 (300 + 8 - 1) (200 + 8 - 1) (by decide) (by decide)]
    norm_num
  refine ⟨by decide, ha, ?_⟩
  rw [detect_block boxContours 480 640 2000 15 300 200 8 110 120 560 320
    boxContours_findsFilledRect (by decide) (by decide) (by decide) (by decide) (by decide)
    (by decide) (by decide) (by decide) (by decide) (by decide) (by decide)]
  have hn : ¬ (contourArea [⟨300, 200⟩, ⟨300, 200 + 8 - 1⟩, ⟨300 + 8 - 1, 200 + 8 - 1⟩,
      ⟨300 + 8 - 1, 200⟩] > (touchMinArea : ℚ)) := by
    rw [ha]
    norm_num [touchMinArea]
  simp only [collectTouchPoints, if_neg hn]

/-! ## Theorems: area filter -/

/-- C8 (amended): the loop over the contours yields a touch point for a contour
exactly when `contourArea(contour) > touchMinArea`, strictly, with
`touchMinArea = 50` and `contourArea` the area of the polygon through the
contour's points; a contour of area `touchMinArea` or less is discarded. The
touch points are those of the kept contours, in order. -/
theorem collectTouchPoints_eq_filter (contours : List (List Point2i)) :
    touchMinArea = 50 ∧
    collectTouchPoints contours =
      (contours.filter (fun c => decide (contourArea c > (touchMinArea : ℚ)))).map
        touchPointOf := by
  refine ⟨rfl, ?_⟩
  induction contours with
  | nil => rfl
  | cons c cs ih =>
    by_cases h : contourArea c > (touchMinArea : ℚ)
    · simp only [collectTouchPoints, if_pos h, ih, List.filter_cons, decide_eq_true h,
        if_true, List.map_cons]
    · simp only [collectTouchPoints, if_neg h, ih, List.filter_cons, decide_eq_false h,
        Bool.false_eq_true, if_false]

/-- C8 (counterexample): the contour (200,150), (200,155), (210,155), (210,150)
has area exactly `touchMinArea = 50` and is discarded. -/
theorem contour_of_area_50_discarded :
    contourArea [⟨200, 150⟩, ⟨200, 155⟩, ⟨210, 155⟩, ⟨210, 150⟩] = (touchMinArea : ℚ) ∧
    collectTouchPoints [[⟨200, 150⟩, ⟨200, 155⟩, ⟨210, 155⟩, ⟨210, 150⟩]] = [] := by
  have ha : contourArea [⟨200, 150⟩, ⟨200, 155⟩, ⟨210, 155⟩, ⟨210, 150⟩] =
      (touchMinArea : ℚ) := by
    rw [contourArea_rect 200 150 210 155 (by decide) (by decide)]
    norm_num [touchMinArea]
  refine ⟨ha, ?_⟩
  have hn : ¬ (contourArea [⟨200, 150⟩, ⟨200, 155⟩, ⟨210, 155⟩, ⟨210, 150⟩] >
      (touchMinArea : ℚ)) := by
    rw [ha]
    exact lt_irrefl _
  simp only [collectTouchPoints, if_neg hn]

/-! ## Theorems: background model -/

theorem foldl_add_px (frames : List Mat1s) (acc : Mat1d) (r c : Int) :
    (frames.foldl (fun acc f => Mat1d.add acc (Mat1s.convertTo64F f)) acc).px r c =
      acc.px r c + (frames.map (fun f => (f.px r c : ℚ))).sum := by
  induction frames generalizing acc with
  | nil => simp
  | cons f fs ih =>
    rw [List.foldl_cons, ih, List.map_cons, List.sum_cons]
    simp only [Mat1d.add, Mat1s.convertTo64F]
    ring

theorem average_px (uninit : Int → Int → ℚ) (frames : List Mat1s) (mean : Mat1s)
    (r c : Int) :
    (average uninit frames mean).px r c =
      saturateShort (cvRound
        ((uninit r c + (frames.map (fun f => (f.px r c : ℚ))).sum) / (frames.length : ℚ))) := by
  simp only [average, Mat1d.convertTo16S, Mat1d.divScalar, foldl_add_px]

theorem cvRound_intCast (n : Int) : cvRound (n : ℚ) = n := by
  simp [cvRound]

/-- C9 (evaluation): thirty frames of constant depth 2000. When the storage
allocated for the accumulator holds 30.0 the computed background is 2001 at
every pixel; it is the mean, 2000, when that storage holds 0.0. The result
depends on the initial contents of the accumulator. -/
theorem average_depends_on_accumulator (r c : Int) :
    (average (fun _ _ => 30) (List.replicate nBackgroundTrain (uniformMat 480 640 2000))
      (uniformMat 480 640 0)).px r c = 2001 ∧
    (average (fun _ _ => 0) (List.replicate nBackgroundTrain (uniformMat 480 640 2000))
      (uniformMat 480 640 0)).px r c = 2000 := by
  have hsum : ((List.replicate nBackgroundTrain (uniformMat 480 640 2000)).map
      (fun f => (f.px r c : ℚ))).sum = 60000 := by
    simp [nBackgroundTrain, uniformMat, List.map_replicate, List.sum_replicate]
    norm_num
  have h1 : ((30 : ℚ) + 60000) / ((List.replicate nBackgroundTrain
      (uniformMat 480 640 2000)).length : ℚ) = ((2001 : Int) : ℚ) := by
    simp [nBackgroundTrain]
    norm_num
  have h0 : ((0 : ℚ) + 60000) / ((List.replicate nBackgroundTrain
      (uniformMat 480 640 2000)).length : ℚ) = ((2000 : Int) : ℚ) := by
    simp [nBackgroundTrain]
    norm_num
  refine ⟨?_, ?_⟩
  · rw [average_px, hsum, h1, cvRound_intCast]
    decide
  · rw [average_px, hsum, h0, cvRound_intCast]
    decide

/-! ## Theorems: degenerate ROI -/

theorem detect_eq (findContours : FindContours) (background depth : Mat1s)
    (xMin yMin xMax yMax : Int) :
    detect findContours background depth xMin yMin xMax yMax =
      if 0 ≤ xMin ∧ 0 ≤ xMax - xMin ∧ xMin + (xMax - xMin) ≤ background.cols ∧
          0 ≤ yMin ∧ 0 ≤ yMax - yMin ∧ yMin + (yMax - yMin) ≤ background.rows then
        match findContours
            { rows := yMax - yMin, cols := xMax - xMin,
              px := fun r c => (touchMask background depth).px (r + yMin) (c + xMin) }
            { x := xMin, y := yMin } with
        | .ok contours => .ok (collectTouchPoints contours)
        | .error e => .error e
      else .error .assertionFailed := by
  simp only [detect, Mat.roi, touchMask, Mat1b.and, Mat1s.gt, Mat1s.sub]
  split_ifs with h
  · simp only [bind, Except.bind, pure, Except.pure]
    split <;> simp_all
  · rfl

theorem collectTouchPoints_of_empty (contours : List (List Point2i))
    (h : ∀ c ∈ contours, c = []) : collectTouchPoints contours = [] := by
  induction contours with
  | nil => rfl
  | cons c cs ih =>
    have hc : c = [] := h c (List.mem_cons_self _ _)
    subst hc
    have hn : ¬ (contourArea [] > (touchMinArea : ℚ)) := by
      simp [contourArea, touchMinArea]
    simp only [collectTouchPoints, if_neg hn]
    exact ih (fun d hd => h d (List.mem_cons_of_mem _ hd))

theorem detect_degenerate_ok (findContours : FindContours) (background depth : Mat1s)
    (xMin yMin xMax yMax : Int) (hfc : ContoursInImage findContours)
    (hdeg : xMax ≤ xMin ∨ yMax ≤ yMin) (touchPoints : List Point2i)
    (hok : detect findContours background depth xMin yMin xMax yMax = .ok touchPoints) :
    touchPoints = [] := by
  rw [detect_eq] at hok
  split_ifs at hok with hc
  cases hfcr : findContours
      { rows := yMax - yMin, cols := xMax - xMin,
        px := fun r c => (touchMask background depth).px (r + yMin) (c + xMin) }
      { x := xMin, y := yMin } with
  | error e =>
    rw [hfcr] at hok
    cases hok
  | ok contours =>
    rw [hfcr] at hok
    simp only [Except.ok.injEq] at hok
    rw [← hok]
    apply collectTouchPoints_of_empty
    intro contour hcon
    cases contour with
    | nil => rfl
    | cons p ps =>
      exfalso
      have hb := hfc _ _ _ hfcr _ hcon p (List.mem_cons_self _ _)
      simp only at hb
      omega

theorem frame_ok_iff (findContours : FindContours) (fl : ℚ → ℚ) (background depth : Mat1s)
    (xMin yMin xMax yMax : Int) (time : Nat) (tuio out : TuioServer)
    (h : frame findContours fl background depth xMin yMin xMax yMax time tuio = .ok out) :
    ∃ touchPoints, detect findContours background depth xMin yMin xMax yMax = .ok touchPoints ∧
      out = trackFrame fl xMin yMin xMax yMax time tuio touchPoints := by
  simp only [frame, bind, Except.bind, pure, Except.pure] at h
  cases hd : detect findContours background depth xMin yMin xMax yMax with
  | error e =>
    rw [hd] at h
    cases h
  | ok touchPoints =>
    rw [hd] at h
    simp only [Except.ok.injEq] at h
    exact ⟨touchPoints, rfl, h.symm⟩

theorem detect_negative_width (findContours : FindContours) :
    detect findContours (uniformMat 480 640 2000) (uniformMat 480 640 2000) 560 120 110 320 =
      .error .assertionFailed := by
  rw [detect_eq, if_neg (by decide)]

theorem detectOutcome_ne_invalidConfiguration (findContours : FindContours)
    (background depth : Mat1s) (xMin yMin xMax yMax : Int) :
    detectOutcome findContours background depth xMin yMin xMax yMax ≠
      .error .invalidConfiguration := by
  unfold detectOutcome
  cases detect findContours background depth xMin yMin xMax yMax with
  | ok touchPoints =>
    intro h
    cases h
  | error e =>
    intro h
    cases h

/-- C10 (amended): for a ROI with `xMax <= xMin` or `yMax <= yMin`, `main` checks
nothing itself and passes the rectangle `(xMin, yMin, xMax - xMin, yMax - yMin)`
to OpenCV as it is; the detection step never ends in an InvalidConfiguration
error. With a negative width or height it fails by the exception of the range
check of `touch(roi)`. In every degenerate case no touch point is produced: the
detection step ends in an OpenCV exception or with an empty list of touch
points, `findContours` returning only pixels of the image it is given; and a
frame that completes has only REMOVE events, no cursor is added or updated. -/
theorem degenerate_roi_yields_no_touch_point (findContours : FindContours) (fl : ℚ → ℚ)
    (background depth : Mat1s) (xMin yMin xMax yMax : Int) (time : Nat) (tuio : TuioServer)
    (hfc : ContoursInImage findContours) (hdeg : xMax ≤ xMin ∨ yMax ≤ yMin) :
    detectOutcome findContours background depth xMin yMin xMax yMax ≠
      .error .invalidConfiguration ∧
    ((xMax < xMin ∨ yMax < yMin) →
      detect findContours background depth xMin yMin xMax yMax = .error .assertionFailed) ∧
    ((∃ e, detect findContours background depth xMin yMin xMax yMax = .error e) ∨
      detect findContours background depth xMin yMin xMax yMax = .ok []) ∧
    (∀ touchPoints, detect findContours background depth xMin yMin xMax yMax = .ok touchPoints →
      touchPoints = []) ∧
    (∀ out, frame findContours fl background depth xMin yMin xMax yMax time tuio = .ok out →
      ∀ e ∈ out.events, ∃ k, e = .remove k) := by
  refine ⟨?_, ?_, ?_, ?_, ?_⟩
  · exact detectOutcome_ne_invalidConfiguration findContours background depth
      xMin yMin xMax yMax
  · intro hneg
    rw [detect_eq, if_neg]
    intro hc
    omega
  · cases hd : detect findContours background depth xMin yMin xMax yMax with
    | error e => exact Or.inl ⟨e, rfl⟩
    | ok touchPoints =>
      right
      rw [detect_degenerate_ok findContours background depth xMin yMin xMax yMax hfc hdeg
        touchPoints hd]
  · intro touchPoints hok
    exact detect_degenerate_ok findContours background depth xMin yMin xMax yMax hfc hdeg
      touchPoints hok
  · intro out hout e he
    obtain ⟨touchPoints, hd, hout2⟩ := frame_ok_iff findContours fl background depth
      xMin yMin xMax yMax time tuio out hout
    have hnil := detect_degenerate_ok findContours background depth xMin yMin xMax yMax hfc
      hdeg touchPoints hd
    subst hnil
    subst hout2
    simp only [trackFrame, endOfFrame, matchLoop, List.foldl_nil, TuioServer.commitFrame,
      TuioServer.removeUntouchedStoppedCursors, TuioServer.stopUntouchedMovingCursors,
      TuioServer.initFrame, List.nil_append, List.mem_map] at he
    obtain ⟨c, _, hc⟩ := he
    exact ⟨c.sessionID, hc.symm⟩

/-- C10 (counterexample): a 480 x 640 frame. With the ROI bounds
`xMin = 560 > xMax = 110` (the default bounds exchanged) the detection step
fails, whatever `findContours` is, and the failure is the exception of OpenCV's
range check in `touch(roi)` on the rectangle (560, 120, -450, 200), not an
InvalidConfiguration error. With `xMin = xMax = 100` the rectangle
(100, 120, 0, 200) passes that range check: `main` does not reject it and hands
the image of 200 rows and no column to `findContours`, whose answer is the
answer of the detection step. -/
theorem degenerate_roi_not_rejected_by_main :
    (∀ findContours : FindContours,
      detectOutcome findContours (uniformMat 480 640 2000) (uniformMat 480 640 2000)
        560 120 110 320 = .error (.cvException .assertionFailed)) ∧
    (∀ findContours : FindContours,
      detectOutcome findContours (uniformMat 480 640 2000) (uniformMat 480 640 2000)
        560 120 110 320 ≠ .error .invalidConfiguration) ∧
    (∀ findContours : FindContours,
      detect findContours (uniformMat 480 640 2000) (uniformMat 480 640 2000)
        100 120 100 320 =
      match findContours
          { rows := 200, cols := 0,
            px := fun r c => (touchMask (uniformMat 480 640 2000)
              (uniformMat 480 640 2000)).px (r + 120) (c + 100) }
          { x := 100, y := 120 } with
      | .ok contours => .ok (collectTouchPoints contours)
      | .error e => .error e) := by
  refine ⟨?_, ?_, ?_⟩
  · intro findContours
    simp only [detectOutcome, detect_negative_width]
  · intro findContours
    exact detectOutcome_ne_invalidConfiguration findContours _ _ 560 120 110 320
  · intro findContours
    rw [detect_eq, if_pos (by decide)]
    rfl

/-- C10 (witness): the ROI bounds `xMin = 560`, `xMax = 110` on a 480 x 640
frame, with `boxContours` and the server `twoCursors`. -/
theorem degenerate_roi_yields_no_touch_point_witness :
    detectOutcome boxContours (uniformMat 480 640 2000) (uniformMat 480 640 2000)
      560 120 110 320 ≠ .error .invalidConfiguration ∧
    (((110 : Int) < 560 ∨ (320 : Int) < 120) →
      detect boxContours (uniformMat 480 640 2000) (uniformMat 480 640 2000)
        560 120 110 320 = .error .assertionFailed) ∧
    ((∃ e, detect boxContours (uniformMat 480 640 2000) (uniformMat 480 640 2000)
        560 120 110 320 = .error e) ∨
      detect boxContours (uniformMat 480 640 2000) (uniformMat 480 640 2000)
        560 120 110 320 = .ok []) ∧
    (∀ touchPoints, detect boxContours (uniformMat 480 640 2000) (uniformMat 480 640 2000)
        560 120 110 320 = .ok touchPoints → touchPoints = []) ∧
    (∀ out, frame boxContours id (uniformMat 480 640 2000) (uniformMat 480 640 2000)
        560 120 110 320 1 twoCursors = .ok out → ∀ e ∈ out.events, ∃ k, e = .remove k) :=
  degenerate_roi_yields_no_touch_point boxContours id (uniformMat 480 640 2000)
    (uniformMat 480 640 2000) 560 120 110 320 1 twoCursors boxContours_inImage
    (Or.inl (by decide))

/-! ## Theorems: the concrete scenario, frame 1 -/

theorem boxContours_zero_image (m : Mat1b) (offset : Point2i)
    (hrows : 0 < m.rows) (hcols : 0 < m.cols)
    (h : ∀ r c, 0 ≤ r → r < m.rows → 0 ≤ c → c < m.cols → m.px r c = 0) :
    boxContours m offset = .ok [] := by
  have hrow : ∀ r, 0 ≤ r → r < 0 + (m.rows.toNat : Int) → rowHasPixel m r = false := by
    intro r h1 h2
    have hr : r < m.rows := by
      have := Int.toNat_of_nonneg (show (0 : Int) ≤ m.rows by
        by_contra hneg
        have hz : m.rows.toNat = 0 := Int.toNat_eq_zero.2 (by omega)
        rw [hz] at h2
        simp at h2
        omega)
      omega
    have hnone : firstIdx (fun c => decide (m.px r c ≠ 0)) m.cols.toNat 0 = none := by
      apply firstIdx_eq_none
      intro j hj1 hj2
      have hc : j < m.cols := by
        have := Int.toNat_of_nonneg (show (0 : Int) ≤ m.cols by
          by_contra hneg
          have hz : m.cols.toNat = 0 := Int.toNat_eq_zero.2 (by omega)
          rw [hz] at hj2
          simp at hj2
          omega)
        omega
      rw [decide_eq_false_iff_not]
      exact fun hne => hne (h r j h1 hr hj1 hc)
    unfold rowHasPixel
    rw [hnone]
    rfl
  have : firstIdx (rowHasPixel m) m.rows.toNat 0 = none :=
    firstIdx_eq_none _ _ _ hrow
  have hne : ¬ (m.rows ≤ 0 ∨ m.cols ≤ 0) := by omega
  simp only [boxContours, if_neg hne, this]

theorem collectTouchPoints_rect (a b c d : Int) (h1 : a ≤ c) (h2 : b ≤ d)
    (hx : 0 ≤ a + c) (hy : 0 ≤ b + d) (harea : (touchMinArea : Int) < (c - a) * (d - b)) :
    collectTouchPoints [[⟨a, b⟩, ⟨a, d⟩, ⟨c, d⟩, ⟨c, b⟩]] = [⟨(a + c) / 2, (b + d) / 2⟩] := by
  have ha : contourArea [⟨a, b⟩, ⟨a, d⟩, ⟨c, d⟩, ⟨c, b⟩] > (touchMinArea : ℚ) := by
    rw [contourArea_rect a b c d h1 h2]
    exact_mod_cast harea
  simp only [collectTouchPoints, if_pos ha, touchPointOf_rect a b c d hx hy]

theorem detect_block_at_band_edge (rows cols x0 y0 s : Int) (xMin yMin xMax yMax : Int)
    (hx0 : 0 ≤ xMin) (hx1 : xMin < xMax) (hx2 : xMax ≤ cols)
    (hy0 : 0 ≤ yMin) (hy1 : yMin < yMax) (hy2 : yMax ≤ rows) :
    detect boxContours (uniformMat rows cols 2000) (blockMat rows cols 2000 10 x0 y0 s)
      xMin yMin xMax yMax = .ok [] := by
  have hc : 0 ≤ xMin ∧ 0 ≤ xMax - xMin ∧ xMin + (xMax - xMin) ≤ (uniformMat rows cols 2000).cols ∧
      0 ≤ yMin ∧ 0 ≤ yMax - yMin ∧ yMin + (yMax - yMin) ≤ (uniformMat rows cols 2000).rows := by
    simp only [uniformMat]
    refine ⟨hx0, ?_, ?_, hy0, ?_, ?_⟩ <;> omega
  rw [detect_eq, if_pos hc, boxContours_zero_image]
  · rfl
  · show 0 < yMax - yMin
    omega
  · show 0 < xMax - xMin
    omega
  · intro r c _ _ _ _
    by_contra hne
    have hband := (touchMask_px_ne_zero_iff (uniformMat rows cols 2000)
      (blockMat rows cols 2000 10 x0 y0 s) (r + yMin) (c + xMin)).1 hne
    simp only [uniformMat, blockMat, touchDepthMin, touchDepthMax] at hband
    split_ifs at hband <;> omega

theorem trackFrame_no_touch_point_no_cursor (fl : ℚ → ℚ) (xMin yMin xMax yMax : Int)
    (time : Nat) :
    trackFrame fl xMin yMin xMax yMax time noCursors [] =
      { cursorList := [], sessionID := 0, currentFrameTime := time, events := [] } := by
  simp [trackFrame, endOfFrame, matchLoop, noCursors, TuioServer.initFrame,
    TuioServer.stopUntouchedMovingCursors, TuioServer.removeUntouchedStoppedCursors,
    TuioServer.commitFrame]

theorem trackFrame_first_touch_point (fl : ℚ → ℚ) (time : Nat) (tuio : TuioServer)
    (hfl : fl (1 / 2) = 1 / 2) (hnone : tuio.cursorList = []) :
    trackFrame fl 0 0 100 100 time tuio [⟨50, 50⟩] =
      { cursorList := [⟨tuio.sessionID, 1 / 2, 1 / 2, time, .active⟩],
        sessionID := tuio.sessionID + 1, currentFrameTime := time,
        events := [.add tuio.sessionID (1 / 2) (1 / 2)] } := by
  have hx : cursorX fl 0 100 ⟨50, 50⟩ = 1 / 2 := by
    have e : (((50 : Int) : ℚ) - ((0 : Int) : ℚ)) / (((100 - 0 : Int)) : ℚ) = 1 / 2 := by
      norm_num
    simp only [cursorX]
    rw [e, hfl]
  have hy : cursorY fl 0 100 ⟨50, 50⟩ = 1 / 2 := by
    have e : (((50 : Int) : ℚ) - ((0 : Int) : ℚ)) / (((100 - 0 : Int)) : ℚ) = 1 / 2 := by
      norm_num
    have e2 : (1 : ℚ) - 1 / 2 = 1 / 2 := by norm_num
    simp only [cursorY]
    rw [e, hfl, e2, hfl]
  simp [trackFrame, endOfFrame, matchLoop, matchStep, TuioServer.initFrame,
    TuioServer.getClosestTuioCursor, closestCursor, hnone, hx, hy,
    TuioServer.addTuioCursor, TuioServer.stopUntouchedMovingCursors,
    TuioServer.removeUntouchedStoppedCursors, TuioServer.commitFrame,
    TuioServer.untouchedStopped]

/-- C11 (amended): a constant 2000 mm background, ROI (0,0)-(100,100), the band
(10, 20), `touchMinArea = 50`, a server without cursors, and a frame equal to
2000 mm except on the 10 x 10 block of the pixels 46..55 in x and in y, at depth
`2000 - k` with `touchDepthMin < k < touchDepthMax` (1981 to 1989 mm): the
detection step produces the one touch point (50, 50), and the frame makes
exactly one `addTuioCursor` call and no update, the ADD at the normalized
position (1/2, 1/2), leaving that one cursor on the server. `findContours`
returns the four corners of a filled rectangle and `fl` leaves 1/2 unchanged. -/
theorem scenario_frame1_one_add (findContours : FindContours) (fl : ℚ → ℚ)
    (rows cols k : Int) (time : Nat) (tuio : TuioServer)
    (hfc : FindsFilledRect findContours) (hfl : fl (1 / 2) = 1 / 2)
    (hk1 : touchDepthMin < k) (hk2 : k < touchDepthMax)
    (hrows : 100 ≤ rows) (hcols : 100 ≤ cols) (hnone : tuio.cursorList = []) :
    touchDepthMin = 10 ∧ touchDepthMax = 20 ∧ touchMinArea = 50 ∧
    detect findContours (uniformMat rows cols 2000) (blockMat rows cols 2000 k 46 46 10)
      0 0 100 100 = .ok [⟨50, 50⟩] ∧
    frame findContours fl (uniformMat rows cols 2000) (blockMat rows cols 2000 k 46 46 10)
      0 0 100 100 time tuio =
      .ok { cursorList := [⟨tuio.sessionID, 1 / 2, 1 / 2, time, .active⟩],
            sessionID := tuio.sessionID + 1, currentFrameTime := time,
            events := [.add tuio.sessionID (1 / 2) (1 / 2)] } := by
  have hd : detect findContours (uniformMat rows cols 2000)
      (blockMat rows cols 2000 k 46 46 10) 0 0 100 100 = .ok [⟨50, 50⟩] := by
    rw [detect_block findContours rows cols 2000 k 46 46 10 0 0 100 100 hfc hk1 hk2
      (le_refl _) hcols (le_refl _) hrows (by decide) (by decide) (by decide) (by decide)
      (by decide)]
    rw [collectTouchPoints_rect 46 46 (46 + 10 - 1) (46 + 10 - 1) (by decide) (by decide)
      (by decide) (by decide) (by decide)]
    rfl
  refine ⟨rfl, rfl, rfl, hd, ?_⟩
  simp only [frame, hd, bind, Except.bind, pure, Except.pure]
  rw [trackFrame_first_touch_point fl time tuio hfl hnone]

/-- C11 (witness): a 480 x 640 frame with the block at 1985 mm, exact
arithmetic, `boxContours`, the server `noCursors`, frame time 1. -/
theorem scenario_frame1_one_add_witness :
    touchDepthMin = 10 ∧ touchDepthMax = 20 ∧ touchMinArea = 50 ∧
    detect boxContours (uniformMat 480 640 2000) (blockMat 480 640 2000 15 46 46 10)
      0 0 100 100 = .ok [⟨50, 50⟩] ∧
    frame boxContours id (uniformMat 480 640 2000) (blockMat 480 640 2000 15 46 46 10)
      0 0 100 100 1 noCursors =
      .ok { cursorList := [⟨noCursors.sessionID, 1 / 2, 1 / 2, 1, .active⟩],
            sessionID := noCursors.sessionID + 1, currentFrameTime := 1,
            events := [.add noCursors.sessionID (1 / 2) (1 / 2)] } :=
  scenario_frame1_one_add boxContours id 480 640 15 1 noCursors
    boxContours_findsFilledRect rfl (by decide) (by decide) (by decide) (by decide) rfl

/-- C11 (counterexample): the scenario as stated, with the block at 1990 mm on a
480 x 640 frame. The foreground on the block is 2000 - 1990 = 10, which is not
above `touchDepthMin = 10`: the touch mask is empty, the detection step produces
no touch point and the frame has no event, no ADD. This holds for the block on
the pixels 46..55 as for the block on the pixels 45..54. -/
theorem scenario_frame1_block_at_1990_no_add :
    (2000 : Int) - 10 = 1990 ∧
    detect boxContours (uniformMat 480 640 2000) (blockMat 480 640 2000 10 46 46 10)
      0 0 100 100 = .ok [] ∧
    frame boxContours id (uniformMat 480 640 2000) (blockMat 480 640 2000 10 46 46 10)
      0 0 100 100 1 noCursors =
      .ok { cursorList := [], sessionID := 0, currentFrameTime := 1, events := [] } ∧
    detect boxContours (uniformMat 480 640 2000) (blockMat 480 640 2000 10 45 45 10)
      0 0 100 100 = .ok [] ∧
    frame boxContours id (uniformMat 480 640 2000) (blockMat 480 640 2000 10 45 45 10)
      0 0 100 100 1 noCursors =
      .ok { cursorList := [], sessionID := 0, currentFrameTime := 1, events := [] } := by
  have h46 := detect_block_at_band_edge 480 640 46 46 10 0 0 100 100
    (by decide) (by decide) (by decide) (by decide) (by decide) (by decide)
  have h45 := detect_block_at_band_edge 480 640 45 45 10 0 0 100 100
    (by decide) (by decide) (by decide) (by decide) (by decide) (by decide)
  refine ⟨by decide, h46, ?_, h45, ?_⟩
  · simp only [frame, h46, bind, Except.bind, pure, Except.pure]
    rw [trackFrame_no_touch_point_no_cursor]
  · simp only [frame, h45, bind, Except.bind, pure, Except.pure]
    rw [trackFrame_no_touch_point_no_cursor]

end KinectTouch
